import Mathlib

/-!
CPU flag detection for ppc_64 (`lib/librte_eal/common/arch/ppc_64/rte_cpuflags.c`).

A shallow embedding of the feature table, of the probe `rte_cpu_get_features`
that reads `/proc/self/auxv`, and of the two accessors
`rte_cpu_get_flag_enabled` and `rte_cpu_get_flag_name`.

Conventions of the embedding:

* C unsigned integers are natural numbers; the one narrowing store of the file
  (`uint64_t` into `uint32_t`) is an explicit `% 2 ^ 32`.
* The operating system is explicit: what `open` and the successive `read`s
  return is an input (`Auxv`), the descriptors open in the process and the
  system calls made so far are state (`Process`) threaded through the code.
* `assert` is compiled in (no `NDEBUG`); a failed assertion ends the run with
  `Exec.aborted`.
-/

/-! ## Constants and types of the source file -/

/-- Line 41: `#define AT_HWCAP 16`. -/
def AT_HWCAP : Nat := 16

/-- Line 42: `#define AT_HWCAP2 26`. -/
def AT_HWCAP2 : Nat := 26

/-- Line 46: `REG_HWCAP = 0`. -/
def REG_HWCAP : Nat := 0

/-- Line 47: `REG_HWCAP2`, the second enumerator. -/
def REG_HWCAP2 : Nat := 1

/-- Line 60: `#define CPU_FLAG_NAME_MAX_LEN 64`. -/
def CPU_FLAG_NAME_MAX_LEN : Nat := 64

/-- Errno value `ENOENT` of the system header. -/
def ENOENT : Int := 2

/-- Errno value `EFAULT` of the system header. -/
def EFAULT : Int := 14

/-- Lines 55-62: `struct feature_entry`; `name` is the string held in the
`char name[64]` field. -/
structure feature_entry where
  leaf : Nat
  subleaf : Nat
  reg : Nat
  bit : Nat
  name : String
deriving DecidableEq, Repr

/-- Line 50: `typedef uint32_t cpuid_registers_t[4]`, the four cells as a list.
Reading outside the list (undefined in C) gives 0 here. -/
abbrev cpuid_registers_t := List Nat

/-- Line 132: `cpuid_registers_t regs = {0}`. -/
def regs_zero : cpuid_registers_t := [0, 0, 0, 0]

/-- Record `Elf64_auxv_t` of `<elf.h>`: `uint64_t a_type` and `uint64_t a_un.a_val`. -/
structure Elf64_auxv_t where
  a_type : Nat
  a_val : Nat
deriving DecidableEq, Repr

/-- Lines 64-65: `FEAT_DEF(name, leaf, subleaf, reg, bit)` gives the initialiser
`{leaf, subleaf, reg, bit, #name}` of the table slot `RTE_CPUFLAG_##name`. -/
def FEAT_DEF (name : String) (leaf subleaf reg bit : Nat) : feature_entry :=
  { leaf := leaf, subleaf := subleaf, reg := reg, bit := bit, name := name }

/-- Modelled from the spec: the header `rte_cpuflags.h`, which declares
`enum rte_cpu_flag_t` and so fixes the slot `RTE_CPUFLAG_##name` of every
`FEAT_DEF` line, is not among the sources. The spec calls the identifiers a
dense, closed index set and the table a dense index-by-identifier array, so the
enumerators are taken to number the `FEAT_DEF` lines 0, 1, 2, ... in order.
Lines 67-102 are then this list, slot `i` holding the `i`-th line. -/
def rte_cpu_feature_table : List feature_entry :=
  [ FEAT_DEF "PPC_LE" 0x00000001 0 REG_HWCAP 0,
    FEAT_DEF "TRUE_LE" 0x00000001 0 REG_HWCAP 1,
    FEAT_DEF "PSERIES_PERFMON_COMPAT" 0x00000001 0 REG_HWCAP 6,
    FEAT_DEF "VSX" 0x00000001 0 REG_HWCAP 7,
    FEAT_DEF "ARCH_2_06" 0x00000001 0 REG_HWCAP 8,
    FEAT_DEF "POWER6_EXT" 0x00000001 0 REG_HWCAP 9,
    FEAT_DEF "DFP" 0x00000001 0 REG_HWCAP 10,
    FEAT_DEF "PA6T" 0x00000001 0 REG_HWCAP 11,
    FEAT_DEF "ARCH_2_05" 0x00000001 0 REG_HWCAP 12,
    FEAT_DEF "ICACHE_SNOOP" 0x00000001 0 REG_HWCAP 13,
    FEAT_DEF "SMT" 0x00000001 0 REG_HWCAP 14,
    FEAT_DEF "BOOKE" 0x00000001 0 REG_HWCAP 15,
    FEAT_DEF "CELLBE" 0x00000001 0 REG_HWCAP 16,
    FEAT_DEF "POWER5_PLUS" 0x00000001 0 REG_HWCAP 17,
    FEAT_DEF "POWER5" 0x00000001 0 REG_HWCAP 18,
    FEAT_DEF "POWER4" 0x00000001 0 REG_HWCAP 19,
    FEAT_DEF "NOTB" 0x00000001 0 REG_HWCAP 20,
    FEAT_DEF "EFP_DOUBLE" 0x00000001 0 REG_HWCAP 21,
    FEAT_DEF "EFP_SINGLE" 0x00000001 0 REG_HWCAP 22,
    FEAT_DEF "SPE" 0x00000001 0 REG_HWCAP 23,
    FEAT_DEF "UNIFIED_CACHE" 0x00000001 0 REG_HWCAP 24,
    FEAT_DEF "4xxMAC" 0x00000001 0 REG_HWCAP 25,
    FEAT_DEF "MMU" 0x00000001 0 REG_HWCAP 26,
    FEAT_DEF "FPU" 0x00000001 0 REG_HWCAP 27,
    FEAT_DEF "ALTIVEC" 0x00000001 0 REG_HWCAP 28,
    FEAT_DEF "PPC601" 0x00000001 0 REG_HWCAP 29,
    FEAT_DEF "PPC64" 0x00000001 0 REG_HWCAP 30,
    FEAT_DEF "PPC32" 0x00000001 0 REG_HWCAP 31,
    FEAT_DEF "TAR" 0x00000001 0 REG_HWCAP2 26,
    FEAT_DEF "LSEL" 0x00000001 0 REG_HWCAP2 27,
    FEAT_DEF "EBB" 0x00000001 0 REG_HWCAP2 28,
    FEAT_DEF "DSCR" 0x00000001 0 REG_HWCAP2 29,
    FEAT_DEF "HTM" 0x00000001 0 REG_HWCAP2 30,
    FEAT_DEF "ARCH_2_07" 0x00000001 0 REG_HWCAP2 31 ]

/-- Modelled from the spec: `RTE_CPUFLAG_NUMFLAGS` is declared in the absent
header `rte_cpuflags.h`. The spec bounds a valid identifier by the table length
(`0 ≤ id < tableLength`), so the constant is the length of the table in use. -/
def RTE_CPUFLAG_NUMFLAGS (table : List feature_entry) : Nat := table.length

/-- A table slot with no initialiser: C zero-fills it (`leaf = 0`, empty name). -/
def feature_entry_zero : feature_entry :=
  { leaf := 0, subleaf := 0, reg := 0, bit := 0, name := "" }

/-! ## The operating system seen by the probe -/

/-- One system call made by the process, with the value it returned. -/
inductive Syscall where
  | sys_open (ret : Int)
  | sys_read (fd : Int) (ret : Int)
deriving DecidableEq, Repr

/-- State of the process: the descriptors currently open and the log of the
system calls made, oldest first. -/
structure Process where
  open_fds : Finset Int
  syscalls : List Syscall

/-- What one `read(fd, &auxv, sizeof(Elf64_auxv_t))` on an open descriptor gives:
a whole record (returns 16), fewer than 16 bytes (returns `n`; `0` is the end of
the stream), or an error (returns -1). -/
inductive ReadResult where
  | full (auxv : Elf64_auxv_t)
  | short (n : Fin 16)
  | failed
deriving DecidableEq, Repr

/-- Value returned by `read` for each outcome. -/
def ReadResult.ret : ReadResult → Int
  | .full _ => 16
  | .short n => (n.val : Int)
  | .failed => -1

/-- Behaviour of `/proc/self/auxv` during one probe: the value `open` returns
(a descriptor, or a negative value when the open fails) and what the successive
reads of the opened descriptor return; once the list is used up `read` returns
0, the end of the stream. -/
structure Auxv where
  open_ret : Int
  reads : List ReadResult

/-- An auxiliary stream given as a finite list of whole records. -/
def Auxv.of_records (fd : Int) (s : List Elf64_auxv_t) : Auxv :=
  { open_ret := fd, reads := s.map ReadResult.full }

/-- Outcome of running code that may trip an assertion. -/
inductive Exec (α : Type) where
  | returned (value : α) (after : Process)
  | aborted

/-- Value a run returned, if it returned. -/
def Exec.value {α : Type} : Exec α → Option α
  | .returned v _ => some v
  | .aborted => none

/-- Process state after a run that returned. -/
def Exec.after {α : Type} : Exec α → Option Process
  | .returned _ p => some p
  | .aborted => none

/-- Append one system call to the log. -/
def Process.log (p : Process) (c : Syscall) : Process :=
  { p with syscalls := p.syscalls ++ [c] }

/-- Call `open("/proc/self/auxv", O_RDONLY)`: a descriptor `ret ≥ 0` joins the
open descriptors, a negative `ret` opens nothing. -/
def sys_open (ret : Int) (p : Process) : Process :=
  { open_fds := if 0 ≤ ret then insert ret p.open_fds else p.open_fds,
    syscalls := p.syscalls ++ [Syscall.sys_open ret] }

/-! ## The code -/

/-- Lines 116-122, on a valid descriptor: the loop
`while (read(auxv_fd, &auxv, 16) == 16) { ... }`.
A store into `out[...]` keeps the low 32 bits of the 64-bit `a_val`. -/
def read_loop (auxv_fd : Int) :
    List ReadResult → cpuid_registers_t → Process → cpuid_registers_t × Process
  | [], out, p => (out, p.log (Syscall.sys_read auxv_fd 0))
  | ReadResult.full auxv :: rest, out, p =>
      let p1 := p.log (Syscall.sys_read auxv_fd 16)
      if auxv.a_type = AT_HWCAP then
        read_loop auxv_fd rest (out.set REG_HWCAP (auxv.a_val % 2 ^ 32)) p1
      else if auxv.a_type = AT_HWCAP2 then
        read_loop auxv_fd rest (out.set REG_HWCAP2 (auxv.a_val % 2 ^ 32)) p1
      else
        read_loop auxv_fd rest out p1
  | ReadResult.short n :: _, out, p => (out, p.log (Syscall.sys_read auxv_fd (n.val : Int)))
  | ReadResult.failed :: _, out, p => (out, p.log (Syscall.sys_read auxv_fd (-1)))

/-- Lines 107-123: `rte_cpu_get_features`. `leaf` and `subleaf` are unused.
`assert(auxv_fd)` aborts exactly when the descriptor is 0. A negative
descriptor passes the assertion; the first `read` on it fails with -1, which
ends the loop at once. Nothing closes the descriptor. -/
def rte_cpu_get_features (k : Auxv) (_leaf _subleaf : Nat) (out : cpuid_registers_t)
    (p : Process) : Exec cpuid_registers_t :=
  let auxv_fd := k.open_ret
  let p1 := sys_open auxv_fd p
  if auxv_fd = 0 then
    Exec.aborted
  else if auxv_fd < 0 then
    Exec.returned out (p1.log (Syscall.sys_read auxv_fd (-1)))
  else
    let r := read_loop auxv_fd k.reads out p1
    Exec.returned r.1 r.2

/-- Lines 128-149: `rte_cpu_get_flag_enabled`. The enum argument is unsigned, a
natural number here. The guard keeps the table index in range, so the default
of `getD` is never used. A shift by 32 or more (undefined in C) gives 0 here. -/
def rte_cpu_get_flag_enabled (table : List feature_entry) (k : Auxv) (p : Process)
    (feature : Nat) : Exec Int :=
  if feature ≥ RTE_CPUFLAG_NUMFLAGS table then
    Exec.returned (-ENOENT) p
  else
    let feat := table.getD feature feature_entry_zero
    if feat.leaf = 0 then
      Exec.returned (-EFAULT) p
    else
      match rte_cpu_get_features k feat.leaf feat.subleaf regs_zero p with
      | Exec.aborted => Exec.aborted
      | Exec.returned regs p1 =>
          Exec.returned (((regs.getD feat.reg 0 >>> feat.bit) &&& 1 : Nat) : Int) p1

/-- Lines 151-157: `rte_cpu_get_flag_name`; `none` is the `NULL` pointer. -/
def rte_cpu_get_flag_name (table : List feature_entry) (feature : Nat) : Option String :=
  if feature ≥ RTE_CPUFLAG_NUMFLAGS table then
    none
  else
    some (table.getD feature feature_entry_zero).name

/-! ## Reference definitions, written from the specification -/

/-- Specification of a capability word (spec 4.2): the value of the last record
of the stream with the given key, as a 32-bit word; 0 when the key never
appears. -/
def spec_word (key : Nat) (s : List Elf64_auxv_t) : Nat :=
  match (s.filter (fun r => r.a_type = key)).getLast? with
  | some r => r.a_val % 2 ^ 32
  | none => 0

/-- The usual start of a process: descriptors 0, 1 and 2 open, no call logged. -/
def process_std : Process := { open_fds := {0, 1, 2}, syscalls := [] }

/-- The records the loop stores from: the whole records read before the first
read that returns anything but a whole record. -/
def applied_records : List ReadResult → List Elf64_auxv_t
  | ReadResult.full a :: rest => a :: applied_records rest
  | _ => []

/-- A capability word that starts at `init`: the low 32 bits of the last value
recorded under `key`, or `init` when there is none. -/
def word_from (init key : Nat) (s : List Elf64_auxv_t) : Nat :=
  match (s.filter (fun r => r.a_type = key)).getLast? with
  | some r => r.a_val % 2 ^ 32
  | none => init

/-! ## The stream as bytes -/

/-- One `uint64_t` as held in 8 bytes of memory, in the byte order of the
machine (ppc_64 runs big-endian or little-endian). -/
def u64_of_bytes (big_endian : Bool) (bs : List (Fin 256)) : Nat :=
  (if big_endian then bs else bs.reverse).foldl (fun acc b => acc * 256 + b.val) 0

/-- Record `Elf64_auxv_t` as held in the 16 bytes a `read` fills: `a_type` in
bytes 0-7 and `a_un.a_val` in bytes 8-15. -/
def auxv_of_bytes (big_endian : Bool) (bs : List (Fin 256)) : Elf64_auxv_t :=
  { a_type := u64_of_bytes big_endian (bs.take 8),
    a_val := u64_of_bytes big_endian ((bs.drop 8).take 8) }

/-- The whole 16-byte records of a byte stream, in stream order: record `i`
(from 0) is made of the bytes `16 * i` to `16 * i + 15`. -/
def records_of_bytes (big_endian : Bool) (bytes : List (Fin 256)) : List Elf64_auxv_t :=
  (List.range (bytes.length / 16)).map
    (fun i => auxv_of_bytes big_endian ((bytes.drop (16 * i)).take 16))

/-- What the successive reads of a byte stream return when each read returns a
whole record while one is left: one whole record per 16 bytes, then a read that
returns the `length % 16` bytes left over (0 at the end of the stream). -/
def reads_of_bytes (big_endian : Bool) (bytes : List (Fin 256)) : List ReadResult :=
  (records_of_bytes big_endian bytes).map ReadResult.full
    ++ [ReadResult.short ⟨bytes.length % 16, Nat.mod_lt _ (by decide)⟩]

/-- An auxiliary stream given as a finite list of bytes. -/
def Auxv.of_bytes (big_endian : Bool) (fd : Int) (bytes : List (Fin 256)) : Auxv :=
  { open_ret := fd, reads := reads_of_bytes big_endian bytes }

/-! ## Lemmas on the read loop -/

theorem spec_word_eq_word_from (key : Nat) (s : List Elf64_auxv_t) :
    spec_word key s = word_from 0 key s := rfl

theorem applied_records_map_full (s : List Elf64_auxv_t) :
    applied_records (s.map ReadResult.full) = s := by
  induction s with
  | nil => rfl
  | cons a rest ih => simp [applied_records, ih]

theorem word_from_nil (init key : Nat) : word_from init key [] = init := rfl

theorem word_from_cons (init key : Nat) (a : Elf64_auxv_t) (s : List Elf64_auxv_t) :
    word_from init key (a :: s)
      = word_from (if a.a_type = key then a.a_val % 2 ^ 32 else init) key s := by
  unfold word_from
  by_cases h : a.a_type = key
  · simp only [List.filter_cons, h, decide_True, if_true]
    cases hl : (s.filter (fun r => decide (r.a_type = key))).getLast? with
    | none =>
        have : s.filter (fun r => decide (r.a_type = key)) = [] := by
          simpa using hl
        simp [this]
    | some r =>
        obtain ⟨l, hl2⟩ : ∃ l, s.filter (fun r => decide (r.a_type = key)) = l ++ [r] := by
          rcases List.getLast?_eq_some_iff.mp hl with ⟨l, hl3⟩
          exact ⟨l, hl3⟩
        rw [hl2, ← List.cons_append, List.getLast?_append]
        simp
  · simp [List.filter_cons, h]

theorem word_from_append_last (init key : Nat) (pre post : List Elf64_auxv_t)
    (r : Elf64_auxv_t) (hr : r.a_type = key) (hpost : ∀ x ∈ post, x.a_type ≠ key) :
    word_from init key (pre ++ r :: post) = r.a_val % 2 ^ 32 := by
  have hfil : post.filter (fun x => decide (x.a_type = key)) = [] := by
    simpa [List.filter_eq_nil_iff] using hpost
  unfold word_from
  rw [List.filter_append, List.filter_cons]
  simp [hr, hfil]

theorem word_from_absent (init key : Nat) (s : List Elf64_auxv_t)
    (h : ∀ x ∈ s, x.a_type ≠ key) : word_from init key s = init := by
  have hfil : s.filter (fun x => decide (x.a_type = key)) = [] := by
    simpa [List.filter_eq_nil_iff] using h
  unfold word_from
  simp [hfil]

theorem read_loop_regs (fd : Int) (reads : List ReadResult) (a b c d : Nat) (p : Process) :
    (read_loop fd reads [a, b, c, d] p).1
      = [word_from a AT_HWCAP (applied_records reads),
         word_from b AT_HWCAP2 (applied_records reads), c, d] := by
  have hne : AT_HWCAP ≠ AT_HWCAP2 := by decide
  have hne2 : AT_HWCAP2 ≠ AT_HWCAP := by decide
  induction reads generalizing a b p with
  | nil => simp [read_loop, applied_records, word_from_nil]
  | cons x rest ih =>
      cases x with
      | full auxv =>
          by_cases h1 : auxv.a_type = AT_HWCAP
          · simp [read_loop, applied_records, word_from_cons, h1, hne, ih, REG_HWCAP]
          · by_cases h2 : auxv.a_type = AT_HWCAP2
            · simp [read_loop, applied_records, word_from_cons, h2, hne2, ih, REG_HWCAP2]
            · simp [read_loop, applied_records, word_from_cons, h1, h2, ih]
      | short n => simp [read_loop, applied_records, word_from_nil]
      | failed => simp [read_loop, applied_records, word_from_nil]

theorem read_loop_open_fds (fd : Int) (reads : List ReadResult) (out : cpuid_registers_t)
    (p : Process) : (read_loop fd reads out p).2.open_fds = p.open_fds := by
  induction reads generalizing out p with
  | nil => simp [read_loop, Process.log]
  | cons x rest ih =>
      cases x with
      | full auxv =>
          simp only [read_loop]
          split_ifs <;> simp [ih, Process.log]
      | short n => simp [read_loop, Process.log]
      | failed => simp [read_loop, Process.log]

theorem shift_and_one_eq_testBit (w b : Nat) :
    (w >>> b) &&& 1 = if w.testBit b then 1 else 0 := by
  rw [Nat.and_one_is_mod, Nat.shiftRight_eq_div_pow, Nat.testBit_to_div_mod]
  rcases Nat.mod_two_eq_zero_or_one (w / 2 ^ b) with h | h <;> simp [h]

theorem features_of_open (k : Auxv) (leaf subleaf : Nat) (p : Process)
    (hfd : 0 < k.open_ret) :
    rte_cpu_get_features k leaf subleaf regs_zero p
      = Exec.returned
          [spec_word AT_HWCAP (applied_records k.reads),
           spec_word AT_HWCAP2 (applied_records k.reads), 0, 0]
          (read_loop k.open_ret k.reads regs_zero (sys_open k.open_ret p)).2 := by
  have h0 : k.open_ret ≠ 0 := ne_of_gt hfd
  have h1 : ¬ k.open_ret < 0 := not_lt.mpr (le_of_lt hfd)
  simp only [rte_cpu_get_features, h0, h1, if_false]
  rw [show regs_zero = [0, 0, 0, 0] from rfl, read_loop_regs]
  rfl

theorem flag_enabled_of_open (table : List feature_entry) (k : Auxv) (p : Process)
    (id : Nat) (hid : id < RTE_CPUFLAG_NUMFLAGS table)
    (hleaf : (table.getD id feature_entry_zero).leaf ≠ 0) (hfd : 0 < k.open_ret) :
    rte_cpu_get_flag_enabled table k p id
      = Exec.returned
          (((([spec_word AT_HWCAP (applied_records k.reads),
               spec_word AT_HWCAP2 (applied_records k.reads), 0, 0] : List Nat).getD
                (table.getD id feature_entry_zero).reg 0
              >>> (table.getD id feature_entry_zero).bit) &&& 1 : Nat) : Int)
          (read_loop k.open_ret k.reads regs_zero (sys_open k.open_ret p)).2 := by
  have h0 : ¬ id ≥ RTE_CPUFLAG_NUMFLAGS table := not_le.mpr hid
  simp only [rte_cpu_get_flag_enabled, h0, hleaf, if_false, features_of_open k _ _ p hfd]

theorem full_mem_of_mem_applied (reads : List ReadResult) (a : Elf64_auxv_t)
    (h : a ∈ applied_records reads) : ReadResult.full a ∈ reads := by
  induction reads with
  | nil => simp [applied_records] at h
  | cons x rest ih =>
      cases x with
      | full b =>
          simp only [applied_records, List.mem_cons] at h
          rcases h with h | h
          · simp [h]
          · exact List.mem_cons_of_mem _ (ih h)
      | short n => simp [applied_records] at h
      | failed => simp [applied_records] at h

theorem flag_enabled_value_of_open (table : List feature_entry) (k : Auxv) (p : Process)
    (id : Nat) (hid : id < RTE_CPUFLAG_NUMFLAGS table)
    (hleaf : (table.getD id feature_entry_zero).leaf ≠ 0) (hfd : 0 < k.open_ret) :
    (rte_cpu_get_flag_enabled table k p id).value
      = some (if (([spec_word AT_HWCAP (applied_records k.reads),
                    spec_word AT_HWCAP2 (applied_records k.reads), 0, 0] : List Nat).getD
                    (table.getD id feature_entry_zero).reg 0).testBit
                  (table.getD id feature_entry_zero).bit then 1 else 0) := by
  rw [flag_enabled_of_open table k p id hid hleaf hfd, shift_and_one_eq_testBit]
  simp only [Exec.value]
  split_ifs <;> rfl

/-! ## The claims -/

/-- Lemma: for an identifier below the table length whose entry has `leaf ≠ 0`, and a
stream of whole records opened on a descriptor `fd > 0`, the probe returns the
words `[HWCAP word, HWCAP2 word, 0, 0]` of the stream (each the specification's
word for its key), and `rte_cpu_get_flag_enabled` returns 1 if bit `entry.bit`
of the word selected by `entry.reg` is set and 0 otherwise. -/
theorem selected_bit_of_positive_descriptor (table : List feature_entry) (id : Nat) (fd : Int)
    (s : List Elf64_auxv_t) (p : Process)
    (hid : id < RTE_CPUFLAG_NUMFLAGS table)
    (hleaf : (table.getD id feature_entry_zero).leaf ≠ 0)
    (hfd : 0 < fd) :
    ∃ regs p1,
      rte_cpu_get_features (Auxv.of_records fd s) (table.getD id feature_entry_zero).leaf
          (table.getD id feature_entry_zero).subleaf regs_zero p = Exec.returned regs p1
      ∧ regs = [spec_word AT_HWCAP s, spec_word AT_HWCAP2 s, 0, 0]
      ∧ rte_cpu_get_flag_enabled table (Auxv.of_records fd s) p id
          = Exec.returned
              (if (regs.getD (table.getD id feature_entry_zero).reg 0).testBit
                    (table.getD id feature_entry_zero).bit then 1 else 0) p1 := by
  have hk : 0 < (Auxv.of_records fd s).open_ret := hfd
  have hs : applied_records (Auxv.of_records fd s).reads = s := applied_records_map_full s
  refine ⟨_, _, features_of_open _ _ _ p hk, by rw [hs], ?_⟩
  rw [flag_enabled_of_open table _ p id hid hleaf hk, shift_and_one_eq_testBit, hs]
  split_ifs <;> rfl

/-- C2: an identifier at or beyond the table length makes
`rte_cpu_get_flag_enabled` return `-ENOENT` whatever the stream is, with the
process state returned as it was (no `open`, no `read`) and the same for every
table of that length (no entry is consulted); an identifier below the table
length never gets `-ENOENT`. -/
theorem flag_enabled_out_of_range (table : List feature_entry) (k : Auxv) (p : Process)
    (id : Nat) :
    (RTE_CPUFLAG_NUMFLAGS table ≤ id →
        rte_cpu_get_flag_enabled table k p id = Exec.returned (-ENOENT) p
        ∧ ∀ (table2 : List feature_entry) (k2 : Auxv),
            RTE_CPUFLAG_NUMFLAGS table2 = RTE_CPUFLAG_NUMFLAGS table →
            rte_cpu_get_flag_enabled table2 k2 p id = Exec.returned (-ENOENT) p)
    ∧ (id < RTE_CPUFLAG_NUMFLAGS table →
        (rte_cpu_get_flag_enabled table k p id).value ≠ some (-ENOENT)) := by
  refine ⟨fun h => ⟨?_, fun table2 k2 h2 => ?_⟩, fun h => ?_⟩
  · simp [rte_cpu_get_flag_enabled, h]
  · have h3 : RTE_CPUFLAG_NUMFLAGS table2 ≤ id := h2 ▸ h
    simp [rte_cpu_get_flag_enabled, h3]
  · have h0 : ¬ id ≥ RTE_CPUFLAG_NUMFLAGS table := not_le.mpr h
    simp only [rte_cpu_get_flag_enabled, h0, if_false]
    by_cases hl : (table.getD id feature_entry_zero).leaf = 0
    · rw [if_pos hl]
      simp [Exec.value, ENOENT, EFAULT]
    · rw [if_neg hl]
      cases rte_cpu_get_features k (table.getD id feature_entry_zero).leaf
          (table.getD id feature_entry_zero).subleaf regs_zero p with
      | aborted => simp [Exec.value]
      | returned regs p1 =>
          simp only [Exec.value, ne_eq, Option.some.injEq, ENOENT]
          omega

/-- C2 at concrete inputs: identifier 34 on the 34-entry table gives `-ENOENT`
and leaves the process untouched; identifier 33 does not give `-ENOENT`. -/
theorem flag_enabled_out_of_range_witness :
    rte_cpu_get_flag_enabled rte_cpu_feature_table (Auxv.of_records 3 [⟨16, 0x80000000⟩])
        process_std 34 = Exec.returned (-ENOENT) process_std
    ∧ (rte_cpu_get_flag_enabled rte_cpu_feature_table (Auxv.of_records 3 [⟨16, 0x80000000⟩])
        process_std 33).value ≠ some (-ENOENT) :=
  ⟨((flag_enabled_out_of_range rte_cpu_feature_table (Auxv.of_records 3 [⟨16, 0x80000000⟩])
        process_std 34).1 (by decide)).1,
   (flag_enabled_out_of_range rte_cpu_feature_table (Auxv.of_records 3 [⟨16, 0x80000000⟩])
        process_std 33).2 (by decide)⟩

/-- C3: `rte_cpu_get_flag_name` returns `NULL` exactly when the identifier is at
or beyond the table length; below it, the result is the name of the entry of
that identifier. On `rte_cpu_feature_table` the names are the stringified
`FEAT_DEF` names in line order, and the entry on bit 28 of `HWCAP` gives
`"ALTIVEC"`. The function takes no stream and no process state: it makes no
system call. -/
theorem flag_name_is_declared_label (table : List feature_entry) (id : Nat) :
    (rte_cpu_get_flag_name table id = none ↔ RTE_CPUFLAG_NUMFLAGS table ≤ id)
    ∧ (∀ entry : feature_entry, table[id]? = some entry →
        rte_cpu_get_flag_name table id = some entry.name)
    ∧ (id < RTE_CPUFLAG_NUMFLAGS rte_cpu_feature_table →
        (rte_cpu_feature_table.getD id feature_entry_zero).reg = REG_HWCAP →
        (rte_cpu_feature_table.getD id feature_entry_zero).bit = 28 →
        rte_cpu_get_flag_name rte_cpu_feature_table id = some "ALTIVEC")
    ∧ (List.range 34).map (rte_cpu_get_flag_name rte_cpu_feature_table)
        = [some "PPC_LE", some "TRUE_LE", some "PSERIES_PERFMON_COMPAT", some "VSX",
           some "ARCH_2_06", some "POWER6_EXT", some "DFP", some "PA6T", some "ARCH_2_05",
           some "ICACHE_SNOOP", some "SMT", some "BOOKE", some "CELLBE", some "POWER5_PLUS",
           some "POWER5", some "POWER4", some "NOTB", some "EFP_DOUBLE", some "EFP_SINGLE",
           some "SPE", some "UNIFIED_CACHE", some "4xxMAC", some "MMU", some "FPU",
           some "ALTIVEC", some "PPC601", some "PPC64", some "PPC32", some "TAR", some "LSEL",
           some "EBB", some "DSCR", some "HTM", some "ARCH_2_07"] := by
  refine ⟨?_, ?_, ?_, by rfl⟩
  · unfold rte_cpu_get_flag_name
    split_ifs with h
    · exact ⟨fun _ => h, fun _ => rfl⟩
    · exact ⟨fun h2 => (by cases h2), fun h2 => absurd h2 h⟩
  · intro entry he
    have hlt : id < table.length := (List.getElem?_eq_some_iff.mp he).1
    have h0 : ¬ id ≥ RTE_CPUFLAG_NUMFLAGS table := not_le.mpr hlt
    simp [rte_cpu_get_flag_name, h0, List.getD_eq_getElem?_getD, he]
  · intro hid hreg hbit
    have hid2 : id < 34 := hid
    interval_cases id <;> first | rfl | (exfalso; revert hreg hbit; decide)

/-- C3 at concrete inputs: identifier 24 of `rte_cpu_feature_table` is named
`"ALTIVEC"`, identifier 34 has no name. -/
theorem flag_name_is_declared_label_witness :
    rte_cpu_get_flag_name rte_cpu_feature_table 24 = some "ALTIVEC"
    ∧ rte_cpu_get_flag_name rte_cpu_feature_table 34 = none :=
  ⟨(flag_name_is_declared_label rte_cpu_feature_table 24).2.2.1 (by decide) (by decide)
      (by decide),
   (flag_name_is_declared_label rte_cpu_feature_table 34).1.mpr (by decide)⟩

/-- C4: on any table, an identifier below the table length whose entry has
`leaf = 0` makes `rte_cpu_get_flag_enabled` return `-EFAULT` whatever the stream
is, with the process state returned as it was (the probe is not run: no `open`,
no `read`); the value returned is neither 0 nor 1. -/
theorem flag_enabled_unfilled_entry (table : List feature_entry) (k : Auxv) (p : Process)
    (id : Nat) (hid : id < RTE_CPUFLAG_NUMFLAGS table)
    (hleaf : (table.getD id feature_entry_zero).leaf = 0) :
    rte_cpu_get_flag_enabled table k p id = Exec.returned (-EFAULT) p
    ∧ (rte_cpu_get_flag_enabled table k p id).value ≠ some 0
    ∧ (rte_cpu_get_flag_enabled table k p id).value ≠ some 1 := by
  have h0 : ¬ id ≥ RTE_CPUFLAG_NUMFLAGS table := not_le.mpr hid
  have hres : rte_cpu_get_flag_enabled table k p id = Exec.returned (-EFAULT) p := by
    simp only [rte_cpu_get_flag_enabled, h0, if_false]
    rw [if_pos hleaf]
  refine ⟨hres, ?_, ?_⟩ <;> rw [hres] <;> simp [Exec.value, EFAULT]

/-- C4 at a concrete input: a three-slot table whose slot 1 has no initialiser,
queried at identifier 1 on a stream with every `HWCAP` bit set. -/
theorem flag_enabled_unfilled_entry_witness :
    rte_cpu_get_flag_enabled
        [FEAT_DEF "PPC_LE" 1 0 REG_HWCAP 0, feature_entry_zero, FEAT_DEF "VSX" 1 0 REG_HWCAP 7]
        (Auxv.of_records 3 [⟨16, 0xffffffff⟩]) process_std 1
      = Exec.returned (-EFAULT) process_std :=
  (flag_enabled_unfilled_entry
    [FEAT_DEF "PPC_LE" 1 0 REG_HWCAP 0, feature_entry_zero, FEAT_DEF "VSX" 1 0 REG_HWCAP 7]
    (Auxv.of_records 3 [⟨16, 0xffffffff⟩]) process_std 1 (by decide) (by decide)).1

/-- C5 fails on the code: `open` fails with -1 while the stream would set bit 31
of `HWCAP`; the query for flag 27 (`PPC32`) returns the flag value 0, read from
the zeroed words, after one failed `read` on descriptor -1. No error is
reported. -/
theorem open_failure_reads_as_disabled :
    rte_cpu_get_flag_enabled rte_cpu_feature_table
        { open_ret := -1, reads := [ReadResult.full ⟨16, 0x80000000⟩] } process_std 27
      = Exec.returned 0
          { open_fds := {0, 1, 2},
            syscalls := [Syscall.sys_open (-1), Syscall.sys_read (-1) (-1)] } := by
  rfl

/-- C5 as amended: the query has no error result for an unavailable resource.
On an identifier below the table length with `leaf ≠ 0`, whatever `open`
returns, the run either is aborted by the assertion of `rte_cpu_get_features`
or returns a flag value 0 or 1; it never returns an error code. -/
theorem flag_enabled_has_no_resource_error (table : List feature_entry) (k : Auxv)
    (p : Process) (id : Nat) (hid : id < RTE_CPUFLAG_NUMFLAGS table)
    (hleaf : (table.getD id feature_entry_zero).leaf ≠ 0) :
    rte_cpu_get_flag_enabled table k p id = Exec.aborted
    ∨ (rte_cpu_get_flag_enabled table k p id).value = some 0
    ∨ (rte_cpu_get_flag_enabled table k p id).value = some 1 := by
  have h0 : ¬ id ≥ RTE_CPUFLAG_NUMFLAGS table := not_le.mpr hid
  simp only [rte_cpu_get_flag_enabled, h0, if_false]
  rw [if_neg hleaf]
  cases rte_cpu_get_features k (table.getD id feature_entry_zero).leaf
      (table.getD id feature_entry_zero).subleaf regs_zero p with
  | aborted => exact Or.inl rfl
  | returned regs p1 =>
      right
      simp only [Exec.value, Option.some.injEq, shift_and_one_eq_testBit]
      split_ifs
      · exact Or.inr rfl
      · exact Or.inl rfl

/-- C5 as amended, at a failed open: flag 27 of `rte_cpu_feature_table` with
`open` returning -1. -/
theorem flag_enabled_has_no_resource_error_witness :
    rte_cpu_get_flag_enabled rte_cpu_feature_table
        { open_ret := -1, reads := [ReadResult.full ⟨16, 0x80000000⟩] } process_std 27
      = Exec.aborted
    ∨ (rte_cpu_get_flag_enabled rte_cpu_feature_table
        { open_ret := -1, reads := [ReadResult.full ⟨16, 0x80000000⟩] } process_std 27).value
      = some 0
    ∨ (rte_cpu_get_flag_enabled rte_cpu_feature_table
        { open_ret := -1, reads := [ReadResult.full ⟨16, 0x80000000⟩] } process_std 27).value
      = some 1 :=
  flag_enabled_has_no_resource_error rte_cpu_feature_table
    { open_ret := -1, reads := [ReadResult.full ⟨16, 0x80000000⟩] } process_std 27
    (by decide) (by decide)

/-- C6 does not hold of the code: `assert(auxv_fd)` tests the descriptor for
being non-zero, not for being non-negative. On descriptor 0, a successful open,
the run is aborted; on a negative descriptor, a failed open, the assertion
passes, one `read` is made on that descriptor (it returns -1) and the function
returns with the words as they were; on a positive descriptor the stream is
read. -/
theorem features_assertion_tests_nonzero (k : Auxv) (leaf subleaf : Nat)
    (out : cpuid_registers_t) (p : Process) :
    (k.open_ret = 0 → rte_cpu_get_features k leaf subleaf out p = Exec.aborted)
    ∧ (k.open_ret < 0 →
        rte_cpu_get_features k leaf subleaf out p
          = Exec.returned out
              { open_fds := p.open_fds,
                syscalls := p.syscalls ++ [Syscall.sys_open k.open_ret,
                                           Syscall.sys_read k.open_ret (-1)] })
    ∧ (0 < k.open_ret →
        rte_cpu_get_features k leaf subleaf out p
          = Exec.returned (read_loop k.open_ret k.reads out (sys_open k.open_ret p)).1
              (read_loop k.open_ret k.reads out (sys_open k.open_ret p)).2) := by
  refine ⟨fun h => ?_, fun h => ?_, fun h => ?_⟩
  · simp [rte_cpu_get_features, h]
  · have h0 : k.open_ret ≠ 0 := ne_of_lt h
    have h1 : ¬ 0 ≤ k.open_ret := not_le.mpr h
    simp [rte_cpu_get_features, h0, h, h1, sys_open, Process.log]
  · have h0 : k.open_ret ≠ 0 := ne_of_gt h
    have h1 : ¬ k.open_ret < 0 := not_lt.mpr (le_of_lt h)
    simp [rte_cpu_get_features, h0, h1]

/-- C6 at the failing inputs: with descriptor 0 free, `open` returns 0 and the
probe aborts; with `open` failing (-1) the probe goes on to `read`. -/
theorem features_assertion_tests_nonzero_witness :
    rte_cpu_get_features { open_ret := 0, reads := [ReadResult.full ⟨16, 0x80000000⟩] } 1 0
        regs_zero { open_fds := {1, 2}, syscalls := [] } = Exec.aborted
    ∧ rte_cpu_get_features { open_ret := -1, reads := [ReadResult.full ⟨16, 0x80000000⟩] } 1 0
        regs_zero process_std
      = Exec.returned regs_zero
          { open_fds := process_std.open_fds,
            syscalls := process_std.syscalls
              ++ [Syscall.sys_open (-1), Syscall.sys_read (-1) (-1)] } :=
  ⟨(features_assertion_tests_nonzero
      { open_ret := 0, reads := [ReadResult.full ⟨16, 0x80000000⟩] } 1 0 regs_zero
      { open_fds := {1, 2}, syscalls := [] }).1 rfl,
   (features_assertion_tests_nonzero
      { open_ret := -1, reads := [ReadResult.full ⟨16, 0x80000000⟩] } 1 0 regs_zero
      process_std).2.1 (by decide)⟩

/-- Lemma: in a stream of whole records opened on a descriptor `fd > 0`, let `r` be
the last record with key `AT_HWCAP` (none follows it in `post`; any number may
precede it in `pre`). The `HWCAP` word the probe returns is the value of `r` as
a 32-bit word, and every flag mapped to `REG_HWCAP` reads the bit of that word:
the records before `r` have no influence. The same holds of `AT_HWCAP2` and
`REG_HWCAP2`. Values are overwritten, not OR-ed: the records 1 then 2 under
`AT_HWCAP` leave the word 2. -/
theorem last_record_wins_of_positive_descriptor (fd : Int) (p : Process) (pre post : List Elf64_auxv_t)
    (r : Elf64_auxv_t) (leaf subleaf : Nat) (hfd : 0 < fd) :
    (r.a_type = AT_HWCAP → (∀ x ∈ post, x.a_type ≠ AT_HWCAP) →
      (∃ regs p1,
        rte_cpu_get_features (Auxv.of_records fd (pre ++ r :: post)) leaf subleaf regs_zero p
          = Exec.returned regs p1
        ∧ regs.getD REG_HWCAP 0 = r.a_val % 2 ^ 32)
      ∧ ∀ (table : List feature_entry) (id : Nat), id < RTE_CPUFLAG_NUMFLAGS table →
          (table.getD id feature_entry_zero).leaf ≠ 0 →
          (table.getD id feature_entry_zero).reg = REG_HWCAP →
          (rte_cpu_get_flag_enabled table (Auxv.of_records fd (pre ++ r :: post)) p id).value
            = some (if (r.a_val % 2 ^ 32).testBit (table.getD id feature_entry_zero).bit
                    then 1 else 0))
    ∧ (r.a_type = AT_HWCAP2 → (∀ x ∈ post, x.a_type ≠ AT_HWCAP2) →
      (∃ regs p1,
        rte_cpu_get_features (Auxv.of_records fd (pre ++ r :: post)) leaf subleaf regs_zero p
          = Exec.returned regs p1
        ∧ regs.getD REG_HWCAP2 0 = r.a_val % 2 ^ 32)
      ∧ ∀ (table : List feature_entry) (id : Nat), id < RTE_CPUFLAG_NUMFLAGS table →
          (table.getD id feature_entry_zero).leaf ≠ 0 →
          (table.getD id feature_entry_zero).reg = REG_HWCAP2 →
          (rte_cpu_get_flag_enabled table (Auxv.of_records fd (pre ++ r :: post)) p id).value
            = some (if (r.a_val % 2 ^ 32).testBit (table.getD id feature_entry_zero).bit
                    then 1 else 0))
    ∧ (rte_cpu_get_features (Auxv.of_records fd [⟨AT_HWCAP, 1⟩, ⟨AT_HWCAP, 2⟩]) leaf subleaf
          regs_zero p).value = some [2, 0, 0, 0] := by
  have hk : ∀ s, 0 < (Auxv.of_records fd s).open_ret := fun _ => hfd
  have hs : ∀ s, applied_records (Auxv.of_records fd s).reads = s :=
    fun s => applied_records_map_full s
  refine ⟨fun hr hpost => ⟨⟨_, _, features_of_open _ _ _ p (hk _), ?_⟩, ?_⟩,
          fun hr hpost => ⟨⟨_, _, features_of_open _ _ _ p (hk _), ?_⟩, ?_⟩, ?_⟩
  · rw [hs, spec_word_eq_word_from, word_from_append_last 0 _ pre post r hr hpost]
    rfl
  · intro table id hid hleaf hreg
    rw [flag_enabled_value_of_open table _ p id hid hleaf (hk _), hs, hreg,
      spec_word_eq_word_from, word_from_append_last 0 _ pre post r hr hpost]
    rfl
  · rw [hs, spec_word_eq_word_from, spec_word_eq_word_from,
      word_from_append_last 0 _ pre post r hr hpost]
    rfl
  · intro table id hid hleaf hreg
    rw [flag_enabled_value_of_open table _ p id hid hleaf (hk _), hs, hreg,
      spec_word_eq_word_from, spec_word_eq_word_from,
      word_from_append_last 0 _ pre post r hr hpost]
    rfl
  · rw [features_of_open _ _ _ p (hk _), hs]
    rfl

/-- Lemma: on a stream opened on a descriptor `fd > 0`, if no record has key
`AT_HWCAP` the `HWCAP` word returned by the probe is 0 and every flag with
`leaf ≠ 0` mapped to `REG_HWCAP` reads 0; if no record has key `AT_HWCAP2` the
`HWCAP2` word is 0 and every such flag mapped to `REG_HWCAP2` reads 0; on the
empty stream every flag with `leaf ≠ 0` reads 0. -/
theorem absent_key_zero_of_positive_descriptor (table : List feature_entry) (k : Auxv) (p : Process)
    (id : Nat) (hid : id < RTE_CPUFLAG_NUMFLAGS table)
    (hleaf : (table.getD id feature_entry_zero).leaf ≠ 0) (hfd : 0 < k.open_ret) :
    ((∀ a, ReadResult.full a ∈ k.reads → a.a_type ≠ AT_HWCAP) →
      (∃ regs p1,
        rte_cpu_get_features k (table.getD id feature_entry_zero).leaf
            (table.getD id feature_entry_zero).subleaf regs_zero p = Exec.returned regs p1
        ∧ regs.getD REG_HWCAP 0 = 0)
      ∧ ((table.getD id feature_entry_zero).reg = REG_HWCAP →
          (rte_cpu_get_flag_enabled table k p id).value = some 0))
    ∧ ((∀ a, ReadResult.full a ∈ k.reads → a.a_type ≠ AT_HWCAP2) →
      (∃ regs p1,
        rte_cpu_get_features k (table.getD id feature_entry_zero).leaf
            (table.getD id feature_entry_zero).subleaf regs_zero p = Exec.returned regs p1
        ∧ regs.getD REG_HWCAP2 0 = 0)
      ∧ ((table.getD id feature_entry_zero).reg = REG_HWCAP2 →
          (rte_cpu_get_flag_enabled table k p id).value = some 0))
    ∧ (k.reads = [] → (rte_cpu_get_flag_enabled table k p id).value = some 0) := by
  have habs : ∀ key, (∀ a, ReadResult.full a ∈ k.reads → a.a_type ≠ key) →
      spec_word key (applied_records k.reads) = 0 := fun key h =>
    word_from_absent 0 key _ (fun x hx => h x (full_mem_of_mem_applied _ _ hx))
  refine ⟨fun h => ⟨⟨_, _, features_of_open k _ _ p hfd, ?_⟩, fun hreg => ?_⟩,
          fun h => ⟨⟨_, _, features_of_open k _ _ p hfd, ?_⟩, fun hreg => ?_⟩, fun h => ?_⟩
  · rw [habs _ h]
    rfl
  · rw [flag_enabled_value_of_open table k p id hid hleaf hfd, hreg, habs _ h]
    simp [REG_HWCAP]
  · rw [habs _ h]
    rfl
  · rw [flag_enabled_value_of_open table k p id hid hleaf hfd, hreg, habs _ h]
    simp [REG_HWCAP2]
  · rw [flag_enabled_value_of_open table k p id hid hleaf hfd, h]
    have hz : ∀ i : Nat, ([0, 0, 0, 0] : List Nat).getD i 0 = 0 := by
      intro i
      rcases i with _ | _ | _ | _ | i <;> simp [List.getD]
    have h1 : spec_word AT_HWCAP (applied_records []) = 0 := rfl
    have h2 : spec_word AT_HWCAP2 (applied_records []) = 0 := rfl
    rw [h1, h2, hz]
    simp

/-- Lemma: on the stream holding the one record `(AT_HWCAP, 0x80000000)`, opened on
a descriptor `fd > 0`, every flag of `rte_cpu_feature_table` mapped to
`REG_HWCAP` reads 1 if its bit is 31 and 0 otherwise; the flag on bit 31 is
identifier 27, declared by `FEAT_DEF(PPC32, 1, 0, REG_HWCAP, 31)`, and reads 1. -/
theorem single_hwcap_record_of_positive_descriptor (fd : Int) (p : Process) (hfd : 0 < fd) :
    (∀ id, id < RTE_CPUFLAG_NUMFLAGS rte_cpu_feature_table →
      (rte_cpu_feature_table.getD id feature_entry_zero).reg = REG_HWCAP →
      (rte_cpu_get_flag_enabled rte_cpu_feature_table
          (Auxv.of_records fd [⟨AT_HWCAP, 0x80000000⟩]) p id).value
        = some (if (rte_cpu_feature_table.getD id feature_entry_zero).bit = 31 then 1 else 0))
    ∧ rte_cpu_feature_table.getD 27 feature_entry_zero = FEAT_DEF "PPC32" 1 0 REG_HWCAP 31
    ∧ rte_cpu_get_flag_enabled rte_cpu_feature_table
          (Auxv.of_records fd [⟨AT_HWCAP, 0x80000000⟩]) p 27
        = Exec.returned 1
            { open_fds := insert fd p.open_fds,
              syscalls := p.syscalls ++ [Syscall.sys_open fd, Syscall.sys_read fd 16,
                                         Syscall.sys_read fd 0] } := by
  have hk : 0 < (Auxv.of_records fd [⟨AT_HWCAP, 0x80000000⟩]).open_ret := hfd
  have hs : applied_records (Auxv.of_records fd [⟨AT_HWCAP, 0x80000000⟩]).reads
      = [⟨AT_HWCAP, 0x80000000⟩] := applied_records_map_full _
  refine ⟨fun id hid hreg => ?_, rfl, ?_⟩
  · have hid2 : id < 34 := hid
    have hleaf : (rte_cpu_feature_table.getD id feature_entry_zero).leaf ≠ 0 := by
      interval_cases id <;> decide
    rw [flag_enabled_value_of_open _ _ p id hid hleaf hk, hs, hreg]
    interval_cases id <;> rfl
  · rw [flag_enabled_of_open _ _ p 27 (by decide) (by decide) hk, hs]
    have h0 : (0 : Int) ≤ fd := le_of_lt hfd
    simp [Auxv.of_records, read_loop, sys_open, Process.log, regs_zero, h0]
    decide

/-- C10 does not hold of the code: nothing closes the descriptor. Whenever the
open gives a descriptor `fd > 0` that was not open before, then on every way
out of the read loop (end of stream, short read, read error) the query returns
with `fd` added to the open descriptors, so the set after the call differs from
the set before it. -/
theorem flag_enabled_leaves_descriptor_open (table : List feature_entry) (k : Auxv)
    (p : Process) (id : Nat) (hid : id < RTE_CPUFLAG_NUMFLAGS table)
    (hleaf : (table.getD id feature_entry_zero).leaf ≠ 0) (hfd : 0 < k.open_ret)
    (hfresh : k.open_ret ∉ p.open_fds) :
    ∃ v p1, rte_cpu_get_flag_enabled table k p id = Exec.returned v p1
      ∧ p1.open_fds = insert k.open_ret p.open_fds
      ∧ p1.open_fds ≠ p.open_fds := by
  have hopen : (read_loop k.open_ret k.reads regs_zero (sys_open k.open_ret p)).2.open_fds
      = insert k.open_ret p.open_fds := by
    rw [read_loop_open_fds]
    simp [sys_open, le_of_lt hfd]
  refine ⟨_, _, flag_enabled_of_open table k p id hid hleaf hfd, hopen, ?_⟩
  rw [hopen]
  intro h
  exact hfresh (h ▸ Finset.mem_insert_self _ _)

/-- C10 at failing inputs: in the usual process (descriptors 0, 1, 2 open) the
open returns 3; after a query for flag 27 descriptor 3 is still open, whether
the loop ended at the end of the stream, on a short read or on a read error. -/
theorem flag_enabled_leaves_descriptor_open_witness :
    (∃ v p1, rte_cpu_get_flag_enabled rte_cpu_feature_table
          { open_ret := 3, reads := [ReadResult.full ⟨16, 0x80000000⟩] } process_std 27
        = Exec.returned v p1
      ∧ p1.open_fds = insert 3 process_std.open_fds ∧ p1.open_fds ≠ process_std.open_fds)
    ∧ (∃ v p1, rte_cpu_get_flag_enabled rte_cpu_feature_table
          { open_ret := 3, reads := [ReadResult.short 7] } process_std 27
        = Exec.returned v p1
      ∧ p1.open_fds = insert 3 process_std.open_fds ∧ p1.open_fds ≠ process_std.open_fds)
    ∧ (∃ v p1, rte_cpu_get_flag_enabled rte_cpu_feature_table
          { open_ret := 3, reads := [ReadResult.failed] } process_std 27
        = Exec.returned v p1
      ∧ p1.open_fds = insert 3 process_std.open_fds ∧ p1.open_fds ≠ process_std.open_fds) :=
  ⟨flag_enabled_leaves_descriptor_open rte_cpu_feature_table
      { open_ret := 3, reads := [ReadResult.full ⟨16, 0x80000000⟩] } process_std 27
      (by decide) (by decide) (by decide) (by decide),
   flag_enabled_leaves_descriptor_open rte_cpu_feature_table
      { open_ret := 3, reads := [ReadResult.short 7] } process_std 27
      (by decide) (by decide) (by decide) (by decide),
   flag_enabled_leaves_descriptor_open rte_cpu_feature_table
      { open_ret := 3, reads := [ReadResult.failed] } process_std 27
      (by decide) (by decide) (by decide) (by decide)⟩

/-! ## Further lemmas -/

theorem applied_records_full_append (s : List Elf64_auxv_t) (t : List ReadResult) :
    applied_records (s.map ReadResult.full ++ t) = s ++ applied_records t := by
  induction s with
  | nil => rfl
  | cons a rest ih => simp [applied_records, ih]

theorem flag_enabled_value_eq_of_applied (table : List feature_entry) (k1 k2 : Auxv)
    (p1 p2 : Process) (id : Nat) (h1 : 0 < k1.open_ret) (h2 : 0 < k2.open_ret)
    (hrec : applied_records k1.reads = applied_records k2.reads) :
    (rte_cpu_get_flag_enabled table k1 p1 id).value
      = (rte_cpu_get_flag_enabled table k2 p2 id).value := by
  by_cases hid : id < RTE_CPUFLAG_NUMFLAGS table
  · by_cases hleaf : (table.getD id feature_entry_zero).leaf = 0
    · have h0 : ¬ id ≥ RTE_CPUFLAG_NUMFLAGS table := not_le.mpr hid
      simp only [rte_cpu_get_flag_enabled, h0, if_false]
      rw [if_pos hleaf, if_pos hleaf]
      rfl
    · rw [flag_enabled_value_of_open table k1 p1 id hid hleaf h1,
        flag_enabled_value_of_open table k2 p2 id hid hleaf h2, hrec]
  · have h0 : id ≥ RTE_CPUFLAG_NUMFLAGS table := not_lt.mp hid
    simp [rte_cpu_get_flag_enabled, h0, Exec.value]

theorem word_from_insert_other (init key : Nat) (pre post : List Elf64_auxv_t)
    (x : Elf64_auxv_t) (hx : x.a_type ≠ key) :
    word_from init key (pre ++ x :: post) = word_from init key (pre ++ post) := by
  unfold word_from
  rw [List.filter_append, List.filter_cons, List.filter_append]
  simp [hx]

/-! ## The claims, continued -/

/-- C11 fails on the code: the stream opens on descriptor 3, the first read
gives the record `(AT_HWCAP, 0x80000000)` and the second read fails with -1; the
query for flag 27 (`PPC32`) returns the flag value 1, computed from the record
read before the error. No error is reported. -/
theorem read_error_returns_flag_value :
    rte_cpu_get_flag_enabled rte_cpu_feature_table
        { open_ret := 3, reads := [ReadResult.full ⟨16, 0x80000000⟩, ReadResult.failed] }
        process_std 27
      = Exec.returned 1
          { open_fds := insert 3 {0, 1, 2},
            syscalls := [Syscall.sys_open 3, Syscall.sys_read 3 16, Syscall.sys_read 3 (-1)] } := by
  rfl

/-- C11 as amended: a read that fails with an error ends the loop as the end of
the stream does. With the stream opened on a descriptor `fd > 0`, whole records
`s` read and then a failing read (whatever further reads would give), the query
on an identifier below the table length with `leaf ≠ 0` returns the same value
as on the stream that ends after `s`: the flag value 0 or 1 read from the words
of `s`, and no error. -/
theorem read_error_ends_loop (table : List feature_entry) (fd : Int) (s : List Elf64_auxv_t)
    (rest : List ReadResult) (p : Process) (id : Nat)
    (hid : id < RTE_CPUFLAG_NUMFLAGS table)
    (hleaf : (table.getD id feature_entry_zero).leaf ≠ 0) (hfd : 0 < fd) :
    (rte_cpu_get_flag_enabled table
        { open_ret := fd, reads := s.map ReadResult.full ++ ReadResult.failed :: rest } p id).value
      = (rte_cpu_get_flag_enabled table (Auxv.of_records fd s) p id).value
    ∧ (rte_cpu_get_flag_enabled table
        { open_ret := fd, reads := s.map ReadResult.full ++ ReadResult.failed :: rest } p id).value
      = some (if (([spec_word AT_HWCAP s, spec_word AT_HWCAP2 s, 0, 0] : List Nat).getD
                    (table.getD id feature_entry_zero).reg 0).testBit
                  (table.getD id feature_entry_zero).bit then 1 else 0) := by
  have happ : applied_records (s.map ReadResult.full ++ ReadResult.failed :: rest) = s := by
    rw [applied_records_full_append]
    simp [applied_records]
  refine ⟨?_, ?_⟩
  · apply flag_enabled_value_eq_of_applied _ _ _ _ _ _ hfd hfd
    rw [happ]
    exact (applied_records_map_full s).symm
  · rw [flag_enabled_value_of_open table _ p id hid hleaf hfd]
    simp only [happ]

/-- C11 as amended, at a concrete input: descriptor 3, the record
`(AT_HWCAP, 0x80000000)`, then a failing read; flag 27 of
`rte_cpu_feature_table`. -/
theorem read_error_ends_loop_witness :
    (rte_cpu_get_flag_enabled rte_cpu_feature_table
        { open_ret := 3,
          reads := [(⟨16, 0x80000000⟩ : Elf64_auxv_t)].map ReadResult.full
                    ++ ReadResult.failed :: [] } process_std 27).value
      = (rte_cpu_get_flag_enabled rte_cpu_feature_table
          (Auxv.of_records 3 [⟨16, 0x80000000⟩]) process_std 27).value :=
  (read_error_ends_loop rte_cpu_feature_table 3 [⟨16, 0x80000000⟩] [] process_std 27
    (by decide) (by decide) (by decide)).1

/-- C13: in a stream of whole records opened on a descriptor `fd > 0`, a record
whose key is neither `AT_HWCAP` nor `AT_HWCAP2` is ignored wherever it stands:
the words returned with it (`pre ++ x :: post`) are the words returned without
it (`pre ++ post`). Key 0 is such a key and does not stop the loop. A record
with key `AT_HWCAP` leaves the `HWCAP2` word as it is without it, and a record
with key `AT_HWCAP2` leaves the `HWCAP` word as it is without it. -/
theorem other_keys_are_ignored (fd : Int) (p : Process) (pre post : List Elf64_auxv_t)
    (x : Elf64_auxv_t) (leaf subleaf : Nat) (hfd : 0 < fd) :
    (x.a_type ≠ AT_HWCAP → x.a_type ≠ AT_HWCAP2 →
      (rte_cpu_get_features (Auxv.of_records fd (pre ++ x :: post)) leaf subleaf regs_zero p).value
        = (rte_cpu_get_features (Auxv.of_records fd (pre ++ post)) leaf subleaf regs_zero p).value)
    ∧ (x.a_type = 0 →
      (rte_cpu_get_features (Auxv.of_records fd (pre ++ x :: post)) leaf subleaf regs_zero p).value
        = (rte_cpu_get_features (Auxv.of_records fd (pre ++ post)) leaf subleaf regs_zero p).value)
    ∧ (x.a_type = AT_HWCAP →
      ∃ regs1 regs2,
        (rte_cpu_get_features (Auxv.of_records fd (pre ++ x :: post)) leaf subleaf regs_zero
            p).value = some regs1
        ∧ (rte_cpu_get_features (Auxv.of_records fd (pre ++ post)) leaf subleaf regs_zero
            p).value = some regs2
        ∧ regs1.getD REG_HWCAP2 0 = regs2.getD REG_HWCAP2 0)
    ∧ (x.a_type = AT_HWCAP2 →
      ∃ regs1 regs2,
        (rte_cpu_get_features (Auxv.of_records fd (pre ++ x :: post)) leaf subleaf regs_zero
            p).value = some regs1
        ∧ (rte_cpu_get_features (Auxv.of_records fd (pre ++ post)) leaf subleaf regs_zero
            p).value = some regs2
        ∧ regs1.getD REG_HWCAP 0 = regs2.getD REG_HWCAP 0) := by
  have hk : ∀ s, 0 < (Auxv.of_records fd s).open_ret := fun _ => hfd
  have hs : ∀ s, applied_records (Auxv.of_records fd s).reads = s :=
    fun s => applied_records_map_full s
  have hval : ∀ s, (rte_cpu_get_features (Auxv.of_records fd s) leaf subleaf regs_zero p).value
      = some [spec_word AT_HWCAP s, spec_word AT_HWCAP2 s, 0, 0] := by
    intro s
    rw [features_of_open _ _ _ p (hk s), hs]
    rfl
  have hother : x.a_type ≠ AT_HWCAP → x.a_type ≠ AT_HWCAP2 →
      (rte_cpu_get_features (Auxv.of_records fd (pre ++ x :: post)) leaf subleaf regs_zero
          p).value
        = (rte_cpu_get_features (Auxv.of_records fd (pre ++ post)) leaf subleaf regs_zero
          p).value := by
    intro h1 h2
    rw [hval, hval, spec_word_eq_word_from, spec_word_eq_word_from, spec_word_eq_word_from,
      spec_word_eq_word_from, word_from_insert_other 0 _ pre post x h1,
      word_from_insert_other 0 _ pre post x h2]
  refine ⟨hother, fun h0 => hother (by rw [h0]; decide) (by rw [h0]; decide),
    fun h1 => ⟨_, _, hval _, hval _, ?_⟩, fun h2 => ⟨_, _, hval _, hval _, ?_⟩⟩
  · have hne : x.a_type ≠ AT_HWCAP2 := by rw [h1]; decide
    show spec_word AT_HWCAP2 _ = spec_word AT_HWCAP2 _
    rw [spec_word_eq_word_from, spec_word_eq_word_from, word_from_insert_other 0 _ pre post x hne]
  · have hne : x.a_type ≠ AT_HWCAP := by rw [h2]; decide
    show spec_word AT_HWCAP _ = spec_word AT_HWCAP _
    rw [spec_word_eq_word_from, spec_word_eq_word_from, word_from_insert_other 0 _ pre post x hne]

/-- C13 at a concrete input: the key-0 record `(0, 0)` put between
`(AT_HWCAP, 0x80000000)` and `(AT_HWCAP2, 0x40000000)` changes neither word. -/
theorem other_keys_are_ignored_witness :
    (rte_cpu_get_features
        (Auxv.of_records 3 ([⟨16, 0x80000000⟩] ++ ⟨0, 0⟩ :: [⟨26, 0x40000000⟩])) 1 0 regs_zero
        process_std).value
      = (rte_cpu_get_features
        (Auxv.of_records 3 ([⟨16, 0x80000000⟩] ++ [⟨26, 0x40000000⟩])) 1 0 regs_zero
        process_std).value :=
  (other_keys_are_ignored 3 process_std [⟨16, 0x80000000⟩] [⟨26, 0x40000000⟩] ⟨0, 0⟩ 1 0
    (by decide)).2.1 rfl

/-- C14: every entry of `rte_cpu_feature_table` has `subleaf = 0`, `reg` equal
to `REG_HWCAP` or `REG_HWCAP2`, `bit` below 32 and a non-empty name of at most
63 bytes, so that it fits the 64-byte field with its terminator. Hence for
every identifier below the table length the register index used by
`rte_cpu_get_flag_enabled` is inside the 4-cell register array and the shift
amount is below 32. -/
theorem feature_table_entries_well_formed :
    (∀ e ∈ rte_cpu_feature_table,
      e.subleaf = 0 ∧ (e.reg = REG_HWCAP ∨ e.reg = REG_HWCAP2) ∧ e.bit < 32
      ∧ e.name ≠ "" ∧ e.name.length ≤ 63 ∧ e.name.utf8ByteSize + 1 ≤ CPU_FLAG_NAME_MAX_LEN)
    ∧ (∀ id, id < RTE_CPUFLAG_NUMFLAGS rte_cpu_feature_table →
      (rte_cpu_feature_table.getD id feature_entry_zero).reg < regs_zero.length
      ∧ regs_zero.length = 4
      ∧ (rte_cpu_feature_table.getD id feature_entry_zero).bit < 32) := by
  refine ⟨by decide, fun id hid => ?_⟩
  have hid2 : id < 34 := hid
  interval_cases id <;> decide

/-- C14 at a concrete input: identifier 27 (`PPC32`) uses register index 0 and
shift 31, inside the 4-cell array and below 32. -/
theorem feature_table_entries_well_formed_witness :
    (rte_cpu_feature_table.getD 27 feature_entry_zero).reg < regs_zero.length
    ∧ regs_zero.length = 4
    ∧ (rte_cpu_feature_table.getD 27 feature_entry_zero).bit < 32 :=
  feature_table_entries_well_formed.2 27 (by decide)

/-- Helper: the value a query returns does not depend on the process state it
starts from. -/
theorem flag_enabled_value_indep_process (table : List feature_entry) (k : Auxv)
    (p1 p2 : Process) (id : Nat) :
    (rte_cpu_get_flag_enabled table k p1 id).value
      = (rte_cpu_get_flag_enabled table k p2 id).value := by
  rcases lt_trichotomy k.open_ret 0 with hneg | hzero | hpos
  · have h0 : k.open_ret ≠ 0 := ne_of_lt hneg
    simp only [rte_cpu_get_flag_enabled, rte_cpu_get_features, h0, hneg, if_true, if_false]
    split_ifs <;> rfl
  · simp only [rte_cpu_get_flag_enabled, rte_cpu_get_features, hzero, if_true]
    split_ifs <;> rfl
  · exact flag_enabled_value_eq_of_applied table k k p1 p2 id hpos hpos rfl

/-- C15: the query keeps no state across calls. If a first query (stream `k1`,
identifier `id1`) returns, leaving the process in state `p1`, then a second
query on stream `k2` returns the value that a first-ever query on `k2` with the
same identifier returns from any fresh state `p0`. In particular, when `k2`
opens on a descriptor above 0 and has no `AT_HWCAP` record, a populated flag
mapped to `REG_HWCAP` reads 0 in the second query whatever `k1` held, and
likewise for `AT_HWCAP2` and `REG_HWCAP2`. -/
theorem flag_enabled_keeps_no_state (table : List feature_entry) (k1 k2 : Auxv)
    (p p0 p1 : Process) (id1 id2 : Nat) (v1 : Int)
    (_hfirst : rte_cpu_get_flag_enabled table k1 p id1 = Exec.returned v1 p1) :
    (rte_cpu_get_flag_enabled table k2 p1 id2).value
      = (rte_cpu_get_flag_enabled table k2 p0 id2).value
    ∧ (0 < k2.open_ret → id2 < RTE_CPUFLAG_NUMFLAGS table →
        (table.getD id2 feature_entry_zero).leaf ≠ 0 →
        ((∀ a, ReadResult.full a ∈ k2.reads → a.a_type ≠ AT_HWCAP) →
          (table.getD id2 feature_entry_zero).reg = REG_HWCAP →
          (rte_cpu_get_flag_enabled table k2 p1 id2).value = some 0)
        ∧ ((∀ a, ReadResult.full a ∈ k2.reads → a.a_type ≠ AT_HWCAP2) →
          (table.getD id2 feature_entry_zero).reg = REG_HWCAP2 →
          (rte_cpu_get_flag_enabled table k2 p1 id2).value = some 0)) := by
  have habs : ∀ key, (∀ a, ReadResult.full a ∈ k2.reads → a.a_type ≠ key) →
      spec_word key (applied_records k2.reads) = 0 := fun key h =>
    word_from_absent 0 key _ (fun x hx => h x (full_mem_of_mem_applied _ _ hx))
  refine ⟨flag_enabled_value_indep_process table k2 p1 p0 id2, fun hfd hid hleaf =>
    ⟨fun h hreg => ?_, fun h hreg => ?_⟩⟩
  · rw [flag_enabled_value_of_open table k2 p1 id2 hid hleaf hfd, hreg, habs _ h]
    simp [REG_HWCAP]
  · rw [flag_enabled_value_of_open table k2 p1 id2 hid hleaf hfd, hreg, habs _ h]
    simp [REG_HWCAP2]

/-- C15 at a concrete input: a first query for flag 27 (`PPC32`) on a stream
with bit 31 of `HWCAP` set returns 1 and leaves descriptor 3 open; the second
query, on a stream without an `AT_HWCAP` record opened on descriptor 4, returns
what a first-ever query returns, which is 0. -/
theorem flag_enabled_keeps_no_state_witness :
    rte_cpu_get_flag_enabled rte_cpu_feature_table (Auxv.of_records 3 [⟨16, 0x80000000⟩])
        process_std 27
      = Exec.returned 1
          { open_fds := insert 3 {0, 1, 2},
            syscalls := [Syscall.sys_open 3, Syscall.sys_read 3 16, Syscall.sys_read 3 0] }
    ∧ (rte_cpu_get_flag_enabled rte_cpu_feature_table (Auxv.of_records 4 [⟨6, 4096⟩])
        { open_fds := insert 3 {0, 1, 2},
          syscalls := [Syscall.sys_open 3, Syscall.sys_read 3 16, Syscall.sys_read 3 0] }
        27).value
      = (rte_cpu_get_flag_enabled rte_cpu_feature_table (Auxv.of_records 4 [⟨6, 4096⟩])
          process_std 27).value
    ∧ (rte_cpu_get_flag_enabled rte_cpu_feature_table (Auxv.of_records 4 [⟨6, 4096⟩])
        { open_fds := insert 3 {0, 1, 2},
          syscalls := [Syscall.sys_open 3, Syscall.sys_read 3 16, Syscall.sys_read 3 0] }
        27).value = some 0 :=
  ⟨rfl,
   (flag_enabled_keeps_no_state rte_cpu_feature_table (Auxv.of_records 3 [⟨16, 0x80000000⟩])
      (Auxv.of_records 4 [⟨6, 4096⟩]) process_std process_std _ 27 27 1 rfl).1,
   ((flag_enabled_keeps_no_state rte_cpu_feature_table (Auxv.of_records 3 [⟨16, 0x80000000⟩])
      (Auxv.of_records 4 [⟨6, 4096⟩]) process_std process_std _ 27 27 1 rfl).2
      (by decide) (by decide) (by decide)).1 (by simp [Auxv.of_records, AT_HWCAP]) rfl⟩

theorem read_loop_syscalls (fd : Int) (s : List Elf64_auxv_t) (n : Fin 16)
    (out : cpuid_registers_t) (p : Process) :
    (read_loop fd (s.map ReadResult.full ++ [ReadResult.short n]) out p).2.syscalls
      = p.syscalls ++ (List.replicate s.length (Syscall.sys_read fd 16)
          ++ [Syscall.sys_read fd (n.val : Int)]) := by
  induction s generalizing out p with
  | nil => simp [read_loop, Process.log]
  | cons a rest ih =>
      simp only [List.map_cons, List.cons_append, read_loop, List.append_eq]
      split_ifs <;> rw [ih] <;> simp [Process.log, List.replicate_succ]

theorem records_of_bytes_length (big_endian : Bool) (bytes : List (Fin 256)) :
    (records_of_bytes big_endian bytes).length = bytes.length / 16 := by
  simp [records_of_bytes]

theorem records_of_bytes_trailing (big_endian : Bool) (whole tail : List (Fin 256))
    (hwhole : 16 ∣ whole.length) (htail : tail.length < 16) :
    records_of_bytes big_endian (whole ++ tail) = records_of_bytes big_endian whole := by
  obtain ⟨m, hm⟩ := hwhole
  have hlen : (whole ++ tail).length / 16 = whole.length / 16 := by
    rw [List.length_append]
    omega
  unfold records_of_bytes
  rw [hlen]
  apply List.map_congr_left
  intro i hi
  have hi2 : i < whole.length / 16 := List.mem_range.mp hi
  have hle : 16 * i ≤ whole.length := by omega
  have hge : 16 ≤ (whole.drop (16 * i)).length := by
    rw [List.length_drop]
    omega
  rw [List.drop_append_of_le_length hle, List.take_append_of_le_length hge]

/-- C16: for a byte stream of any length `n`, opened on a descriptor `fd > 0` and
delivered one whole record per read while one is left, the probe returns, after
exactly `n / 16` reads that return 16 and one last read that returns `n % 16`.
The records it stores from are the `n / 16` whole 16-byte records in stream
order (record `i` is bytes `16 * i` to `16 * i + 15`), and the words returned
are the words of that list of records. A trailing part of fewer than 16 bytes
after whole records contributes nothing: the words are those of the stream
without it. -/
theorem read_loop_applies_whole_records (big_endian : Bool) (fd : Int)
    (bytes : List (Fin 256)) (leaf subleaf : Nat) (p : Process) (hfd : 0 < fd) :
    (∃ p1,
      rte_cpu_get_features (Auxv.of_bytes big_endian fd bytes) leaf subleaf regs_zero p
        = Exec.returned
            [spec_word AT_HWCAP (records_of_bytes big_endian bytes),
             spec_word AT_HWCAP2 (records_of_bytes big_endian bytes), 0, 0] p1
      ∧ p1.syscalls
        = p.syscalls ++ Syscall.sys_open fd ::
            (List.replicate (bytes.length / 16) (Syscall.sys_read fd 16)
              ++ [Syscall.sys_read fd ((bytes.length % 16 : Nat) : Int)]))
    ∧ applied_records (Auxv.of_bytes big_endian fd bytes).reads
        = records_of_bytes big_endian bytes
    ∧ (records_of_bytes big_endian bytes).length = bytes.length / 16
    ∧ (∀ i, i < bytes.length / 16 →
        (records_of_bytes big_endian bytes)[i]?
          = some (auxv_of_bytes big_endian ((bytes.drop (16 * i)).take 16)))
    ∧ (∀ whole tail : List (Fin 256), bytes = whole ++ tail → 16 ∣ whole.length →
        tail.length < 16 →
        (rte_cpu_get_features (Auxv.of_bytes big_endian fd bytes) leaf subleaf regs_zero
            p).value
          = (rte_cpu_get_features (Auxv.of_bytes big_endian fd whole) leaf subleaf regs_zero
            p).value) := by
  have hk : ∀ b, 0 < (Auxv.of_bytes big_endian fd b).open_ret := fun _ => hfd
  have happ : ∀ b, applied_records (Auxv.of_bytes big_endian fd b).reads
      = records_of_bytes big_endian b := by
    intro b
    show applied_records (reads_of_bytes big_endian b) = _
    unfold reads_of_bytes
    rw [applied_records_full_append]
    simp [applied_records]
  have hval : ∀ b, (rte_cpu_get_features (Auxv.of_bytes big_endian fd b) leaf subleaf
        regs_zero p).value
      = some [spec_word AT_HWCAP (records_of_bytes big_endian b),
              spec_word AT_HWCAP2 (records_of_bytes big_endian b), 0, 0] := by
    intro b
    rw [features_of_open _ _ _ p (hk b), happ]
    rfl
  refine ⟨⟨(read_loop fd (reads_of_bytes big_endian bytes) regs_zero (sys_open fd p)).2,
      ?_, ?_⟩, happ bytes, records_of_bytes_length _ _, fun i hi => ?_,
    fun whole tail hb hw ht => ?_⟩
  · rw [features_of_open _ _ _ p (hk bytes), happ]
    rfl
  · show (read_loop fd (reads_of_bytes big_endian bytes) regs_zero (sys_open fd p)).2.syscalls
      = _
    unfold reads_of_bytes
    rw [read_loop_syscalls, records_of_bytes_length]
    simp [sys_open]
  · simp [records_of_bytes, List.getElem?_map, List.getElem?_range hi]
  · rw [hval, hval, hb, records_of_bytes_trailing big_endian whole tail hw ht]

/-- C16 at a concrete input: 19 big-endian bytes on descriptor 3, one whole
record `(16, 0x80000000)` and three bytes over; the probe returns the words of
that one record after one read of 16 and one read of 3. -/
theorem read_loop_applies_whole_records_witness :
    ∃ p1,
      rte_cpu_get_features
          (Auxv.of_bytes true 3 [0,0,0,0,0,0,0,16, 0,0,0,0,128,0,0,0, 1,2,3]) 1 0 regs_zero
          process_std
        = Exec.returned
            [spec_word AT_HWCAP
               (records_of_bytes true [0,0,0,0,0,0,0,16, 0,0,0,0,128,0,0,0, 1,2,3]),
             spec_word AT_HWCAP2
               (records_of_bytes true [0,0,0,0,0,0,0,16, 0,0,0,0,128,0,0,0, 1,2,3]), 0, 0] p1
      ∧ p1.syscalls
        = process_std.syscalls ++ Syscall.sys_open 3 ::
            (List.replicate
                (([0,0,0,0,0,0,0,16, 0,0,0,0,128,0,0,0, 1,2,3] : List (Fin 256)).length / 16)
                (Syscall.sys_read 3 16)
              ++ [Syscall.sys_read 3
                    (((([0,0,0,0,0,0,0,16, 0,0,0,0,128,0,0,0, 1,2,3] :
                          List (Fin 256)).length % 16 : Nat)) : Int)]) :=
  (read_loop_applies_whole_records true 3 [0,0,0,0,0,0,0,16, 0,0,0,0,128,0,0,0, 1,2,3] 1 0
    process_std (by decide)).1

theorem unfilled_entry_value_eq (table : List feature_entry) (k1 k2 : Auxv)
    (p : Process) (id : Nat) (hid : id < RTE_CPUFLAG_NUMFLAGS table)
    (hleaf : (table.getD id feature_entry_zero).leaf = 0) :
    (rte_cpu_get_flag_enabled table k1 p id).value
      = (rte_cpu_get_flag_enabled table k2 p id).value := by
  have h0 : ¬ id ≥ RTE_CPUFLAG_NUMFLAGS table := not_le.mpr hid
  simp only [rte_cpu_get_flag_enabled, h0, if_false]
  rw [if_pos hleaf, if_pos hleaf]

theorem flag_enabled_value_cases (table : List feature_entry) (k : Auxv) (p : Process)
    (id : Nat) (hid : id < RTE_CPUFLAG_NUMFLAGS table)
    (hleaf : (table.getD id feature_entry_zero).leaf ≠ 0) :
    (rte_cpu_get_flag_enabled table k p id).value = none
    ∨ (rte_cpu_get_flag_enabled table k p id).value = some 0
    ∨ (rte_cpu_get_flag_enabled table k p id).value = some 1 := by
  have h0 : ¬ id ≥ RTE_CPUFLAG_NUMFLAGS table := not_le.mpr hid
  simp only [rte_cpu_get_flag_enabled, h0, if_false]
  rw [if_neg hleaf]
  cases rte_cpu_get_features k (table.getD id feature_entry_zero).leaf
      (table.getD id feature_entry_zero).subleaf regs_zero p with
  | aborted => exact Or.inl rfl
  | returned regs p1 =>
      right
      simp only [Exec.value, Option.some.injEq, shift_and_one_eq_testBit]
      split_ifs
      · exact Or.inr rfl
      · exact Or.inl rfl

theorem word_from_low_bits (init key : Nat) (s t : List Elf64_auxv_t)
    (h : s.map (fun r => (r.a_type, r.a_val % 2 ^ 32))
        = t.map (fun r => (r.a_type, r.a_val % 2 ^ 32))) :
    word_from init key s = word_from init key t := by
  induction s generalizing t init with
  | nil =>
      cases t with
      | nil => rfl
      | cons b t2 => simp at h
  | cons a s2 ih =>
      cases t with
      | nil => simp at h
      | cons b t2 =>
          simp only [List.map_cons, List.cons.injEq, Prod.mk.injEq] at h
          obtain ⟨⟨hty, hval⟩, hrest⟩ := h
          rw [word_from_cons, word_from_cons, hty, hval]
          exact ih _ t2 hrest

theorem flag_enabled_value_of_not_open (table : List feature_entry) (k1 k2 : Auxv)
    (p1 p2 : Process) (id : Nat) (hsame : k1.open_ret = k2.open_ret)
    (hfd : k1.open_ret ≤ 0) :
    (rte_cpu_get_flag_enabled table k1 p1 id).value
      = (rte_cpu_get_flag_enabled table k2 p2 id).value := by
  rcases lt_or_eq_of_le hfd with hneg | hzero
  · have hneg2 : k2.open_ret < 0 := hsame ▸ hneg
    have h1 : k1.open_ret ≠ 0 := ne_of_lt hneg
    have h2 : k2.open_ret ≠ 0 := ne_of_lt hneg2
    simp only [rte_cpu_get_flag_enabled, rte_cpu_get_features, h1, h2, hneg, hneg2, if_true,
      if_false]
    split_ifs <;> rfl
  · have hzero2 : k2.open_ret = 0 := hsame ▸ hzero
    simp only [rte_cpu_get_flag_enabled, rte_cpu_get_features, hzero, hzero2, if_true]
    split_ifs <;> rfl

/-- C17: only the low 32 bits of a record's value reach a capability word. If
two streams of whole records have the same keys in the same order and values
that agree in their low 32 bits, then for every table, descriptor and
identifier the query returns the same on both; and on a descriptor `fd > 0` the
word stored from a single `AT_HWCAP` or `AT_HWCAP2` record is its value modulo
`2 ^ 32`. -/
theorem only_low_32_bits_reach_word (table : List feature_entry) (fd : Int)
    (s t : List Elf64_auxv_t) (p : Process) (id : Nat)
    (hlow : s.map (fun r => (r.a_type, r.a_val % 2 ^ 32))
        = t.map (fun r => (r.a_type, r.a_val % 2 ^ 32))) :
    (rte_cpu_get_flag_enabled table (Auxv.of_records fd s) p id).value
      = (rte_cpu_get_flag_enabled table (Auxv.of_records fd t) p id).value
    ∧ (rte_cpu_get_features (Auxv.of_records fd s) 1 0 regs_zero p).value
      = (rte_cpu_get_features (Auxv.of_records fd t) 1 0 regs_zero p).value
    ∧ (0 < fd → ∀ v : Nat,
        (rte_cpu_get_features (Auxv.of_records fd [⟨AT_HWCAP, v⟩]) 1 0 regs_zero p).value
          = some [v % 2 ^ 32, 0, 0, 0]
        ∧ (rte_cpu_get_features (Auxv.of_records fd [⟨AT_HWCAP2, v⟩]) 1 0 regs_zero p).value
          = some [0, v % 2 ^ 32, 0, 0]) := by
  have hs : ∀ u, applied_records (Auxv.of_records fd u).reads = u :=
    fun u => applied_records_map_full u
  have hw : ∀ key, spec_word key s = spec_word key t := fun key => by
    rw [spec_word_eq_word_from, spec_word_eq_word_from]
    exact word_from_low_bits 0 key s t hlow
  refine ⟨?_, ?_, fun hfd v => ⟨?_, ?_⟩⟩
  · rcases lt_or_le 0 fd with hpos | hle
    · by_cases hid : id < RTE_CPUFLAG_NUMFLAGS table
      · by_cases hleaf : (table.getD id feature_entry_zero).leaf = 0
        · exact (unfilled_entry_value_eq table _ _ p id hid hleaf)
        · rw [flag_enabled_value_of_open table _ p id hid hleaf hpos,
            flag_enabled_value_of_open table _ p id hid hleaf hpos, hs, hs, hw, hw]
      · have h0 : id ≥ RTE_CPUFLAG_NUMFLAGS table := not_lt.mp hid
        simp [rte_cpu_get_flag_enabled, h0, Exec.value]
    · exact flag_enabled_value_of_not_open table _ _ p p id rfl hle
  · rcases lt_trichotomy fd 0 with hneg | hzero | hpos
    · have h0 : fd ≠ 0 := ne_of_lt hneg
      simp [rte_cpu_get_features, Auxv.of_records, h0, hneg, Exec.value]
    · simp [rte_cpu_get_features, Auxv.of_records, hzero, Exec.value]
    · rw [features_of_open _ _ _ p (show 0 < (Auxv.of_records fd s).open_ret from hpos),
        features_of_open _ _ _ p (show 0 < (Auxv.of_records fd t).open_ret from hpos),
        hs, hs, hw, hw]
      rfl
  · rw [features_of_open _ _ _ p (show 0 < (Auxv.of_records fd _).open_ret from hfd), hs]
    simp [Exec.value, spec_word, AT_HWCAP, AT_HWCAP2]
  · rw [features_of_open _ _ _ p (show 0 < (Auxv.of_records fd _).open_ret from hfd), hs]
    simp [Exec.value, spec_word, AT_HWCAP, AT_HWCAP2]

/-- C17 at a concrete input: the values `0x80000000` and `0x1234567880000000`
under `AT_HWCAP` differ only above bit 31; flag 27 (`PPC32`) reads the same on
both. -/
theorem only_low_32_bits_reach_word_witness :
    (rte_cpu_get_flag_enabled rte_cpu_feature_table
        (Auxv.of_records 3 [⟨16, 0x80000000⟩]) process_std 27).value
      = (rte_cpu_get_flag_enabled rte_cpu_feature_table
        (Auxv.of_records 3 [⟨16, 0x1234567880000000⟩]) process_std 27).value :=
  (only_low_32_bits_reach_word rte_cpu_feature_table 3 [⟨16, 0x80000000⟩]
    [⟨16, 0x1234567880000000⟩] process_std 27 (by decide)).1

/-- C18: with the identifiers numbering the 34 `FEAT_DEF` lines from 0, the
table has length 34 and every identifier below 34 has an entry with `leaf = 1`;
so `rte_cpu_get_flag_enabled` on `rte_cpu_feature_table` never returns
`-EFAULT`, and a negative value it returns is `-ENOENT`, returned for an
identifier of 34 or more. -/
theorem every_flag_is_populated (k : Auxv) (p : Process) (id : Nat) :
    RTE_CPUFLAG_NUMFLAGS rte_cpu_feature_table = 34
    ∧ (id < 34 → (rte_cpu_feature_table.getD id feature_entry_zero).leaf = 1)
    ∧ (rte_cpu_get_flag_enabled rte_cpu_feature_table k p id).value ≠ some (-EFAULT)
    ∧ (∀ v, (rte_cpu_get_flag_enabled rte_cpu_feature_table k p id).value = some v →
        v < 0 → v = -ENOENT ∧ 34 ≤ id) := by
  have hleaf : id < 34 → (rte_cpu_feature_table.getD id feature_entry_zero).leaf = 1 := by
    intro hid
    interval_cases id <;> rfl
  refine ⟨rfl, hleaf, ?_, ?_⟩
  · by_cases hid : id < 34
    · have hl : (rte_cpu_feature_table.getD id feature_entry_zero).leaf ≠ 0 := by
        rw [hleaf hid]; decide
      rcases flag_enabled_value_cases rte_cpu_feature_table k p id hid hl with h | h | h
      · rw [h]; simp
      · rw [h]; simp [EFAULT]
      · rw [h]; simp [EFAULT]
    · have h0 : id ≥ RTE_CPUFLAG_NUMFLAGS rte_cpu_feature_table := not_lt.mp hid
      simp [rte_cpu_get_flag_enabled, h0, Exec.value, ENOENT, EFAULT]
  · intro v hv hneg
    by_cases hid : id < 34
    · have hl : (rte_cpu_feature_table.getD id feature_entry_zero).leaf ≠ 0 := by
        rw [hleaf hid]; decide
      rcases flag_enabled_value_cases rte_cpu_feature_table k p id hid hl with h | h | h
      · rw [h] at hv; cases hv
      · rw [h] at hv
        cases hv
        exact absurd hneg (by decide)
      · rw [h] at hv
        cases hv
        exact absurd hneg (by decide)
    · have h0 : id ≥ RTE_CPUFLAG_NUMFLAGS rte_cpu_feature_table := not_lt.mp hid
      simp only [rte_cpu_get_flag_enabled, h0, if_true, Exec.value, Option.some.injEq] at hv
      exact ⟨hv.symm, not_lt.mp hid⟩

/-- C18 at concrete inputs: identifier 33 has `leaf = 1`; identifier 34 gets
`-ENOENT`. -/
theorem every_flag_is_populated_witness :
    (rte_cpu_feature_table.getD 33 feature_entry_zero).leaf = 1
    ∧ ((-2 : Int) = -ENOENT ∧ 34 ≤ 34) :=
  ⟨(every_flag_is_populated (Auxv.of_records 3 []) process_std 33).2.1 (by decide),
   (every_flag_is_populated (Auxv.of_records 3 []) process_std 34).2.2.2 (-2) rfl
      (by decide)⟩

/-- C20: whenever `rte_cpu_get_flag_enabled` returns, the value is one of 0, 1,
`-ENOENT`, `-EFAULT`. It returns unless `open` gave descriptor 0 on a populated
identifier. An identifier below the table length with `leaf ≠ 0` gets 0 or 1;
an identifier at or beyond the table length gets `-ENOENT` and one with
`leaf = 0` gets `-EFAULT`, both strictly negative, hence different from 0 and
from 1. -/
theorem flag_enabled_return_values (table : List feature_entry) (k : Auxv) (p : Process)
    (id : Nat) :
    (∀ v, (rte_cpu_get_flag_enabled table k p id).value = some v →
        v = 0 ∨ v = 1 ∨ v = -ENOENT ∨ v = -EFAULT)
    ∧ (k.open_ret ≠ 0 → ∃ v, (rte_cpu_get_flag_enabled table k p id).value = some v)
    ∧ (id < RTE_CPUFLAG_NUMFLAGS table → (table.getD id feature_entry_zero).leaf ≠ 0 →
        ∀ v, (rte_cpu_get_flag_enabled table k p id).value = some v → v = 0 ∨ v = 1)
    ∧ (RTE_CPUFLAG_NUMFLAGS table ≤ id →
        (rte_cpu_get_flag_enabled table k p id).value = some (-ENOENT))
    ∧ (id < RTE_CPUFLAG_NUMFLAGS table → (table.getD id feature_entry_zero).leaf = 0 →
        (rte_cpu_get_flag_enabled table k p id).value = some (-EFAULT))
    ∧ -ENOENT < 0 ∧ -EFAULT < 0 := by
  have hout : RTE_CPUFLAG_NUMFLAGS table ≤ id →
      (rte_cpu_get_flag_enabled table k p id).value = some (-ENOENT) := by
    intro h
    simp [rte_cpu_get_flag_enabled, h, Exec.value]
  have hunf : id < RTE_CPUFLAG_NUMFLAGS table → (table.getD id feature_entry_zero).leaf = 0 →
      (rte_cpu_get_flag_enabled table k p id).value = some (-EFAULT) := by
    intro hid hleaf
    have h0 : ¬ id ≥ RTE_CPUFLAG_NUMFLAGS table := not_le.mpr hid
    simp only [rte_cpu_get_flag_enabled, h0, if_false]
    rw [if_pos hleaf]
    rfl
  have hpop : id < RTE_CPUFLAG_NUMFLAGS table → (table.getD id feature_entry_zero).leaf ≠ 0 →
      ∀ v, (rte_cpu_get_flag_enabled table k p id).value = some v → v = 0 ∨ v = 1 := by
    intro hid hleaf v hv
    rcases flag_enabled_value_cases table k p id hid hleaf with h | h | h
    · rw [h] at hv; cases hv
    · rw [h] at hv; cases hv; exact Or.inl rfl
    · rw [h] at hv; cases hv; exact Or.inr rfl
  refine ⟨fun v hv => ?_, fun hfd => ?_, hpop, hout, hunf, by decide, by decide⟩
  · by_cases hid : id < RTE_CPUFLAG_NUMFLAGS table
    · by_cases hleaf : (table.getD id feature_entry_zero).leaf = 0
      · rw [hunf hid hleaf] at hv
        cases hv
        exact Or.inr (Or.inr (Or.inr rfl))
      · rcases hpop hid hleaf v hv with h | h
        · exact Or.inl h
        · exact Or.inr (Or.inl h)
    · rw [hout (not_lt.mp hid)] at hv
      cases hv
      exact Or.inr (Or.inr (Or.inl rfl))
  · by_cases hid : id < RTE_CPUFLAG_NUMFLAGS table
    · by_cases hleaf : (table.getD id feature_entry_zero).leaf = 0
      · exact ⟨_, hunf hid hleaf⟩
      · have h0 : ¬ id ≥ RTE_CPUFLAG_NUMFLAGS table := not_le.mpr hid
        simp only [rte_cpu_get_flag_enabled, h0, if_false]
        rw [if_neg hleaf]
        simp only [rte_cpu_get_features, hfd, if_false]
        split_ifs <;> exact ⟨_, rfl⟩
    · exact ⟨_, hout (not_lt.mp hid)⟩

/-- C20 at concrete inputs on `rte_cpu_feature_table` with descriptor 3:
identifier 27 returns a value, which is 0 or 1; identifier 34 returns
`-ENOENT`. -/
theorem flag_enabled_return_values_witness :
    (∃ v, (rte_cpu_get_flag_enabled rte_cpu_feature_table
        (Auxv.of_records 3 [⟨16, 0x80000000⟩]) process_std 27).value = some v)
    ∧ ((1 : Int) = 0 ∨ (1 : Int) = 1)
    ∧ (rte_cpu_get_flag_enabled rte_cpu_feature_table
        (Auxv.of_records 3 [⟨16, 0x80000000⟩]) process_std 34).value = some (-ENOENT) :=
  ⟨(flag_enabled_return_values rte_cpu_feature_table (Auxv.of_records 3 [⟨16, 0x80000000⟩])
      process_std 27).2.1 (by decide),
   (flag_enabled_return_values rte_cpu_feature_table (Auxv.of_records 3 [⟨16, 0x80000000⟩])
      process_std 27).2.2.1 (by decide) (by decide) 1 rfl,
   (flag_enabled_return_values rte_cpu_feature_table (Auxv.of_records 3 [⟨16, 0x80000000⟩])
      process_std 34).2.2.2.1 (by decide)⟩

theorem spec_word_single (key : Nat) (r : Elf64_auxv_t) :
    spec_word key [r] = if r.a_type = key then r.a_val % 2 ^ 32 else 0 := by
  by_cases h : r.a_type = key <;> simp [spec_word, h]

/-- C19: no two entries of `rte_cpu_feature_table` have the same `(reg, bit)`
pair and no two have the same name. Hence for any two distinct identifiers
below the table length there is a stream (on any descriptor `fd > 0`) on which
`rte_cpu_get_flag_enabled` returns 1 for the first and 0 for the second. -/
theorem flag_bits_are_distinct :
    (rte_cpu_feature_table.map (fun e => (e.reg, e.bit))).Nodup
    ∧ (rte_cpu_feature_table.map (fun e => e.name)).Nodup
    ∧ ∀ i j, i < RTE_CPUFLAG_NUMFLAGS rte_cpu_feature_table →
        j < RTE_CPUFLAG_NUMFLAGS rte_cpu_feature_table → i ≠ j →
        ∀ (fd : Int) (p : Process), 0 < fd →
        ∃ s : List Elf64_auxv_t,
          (rte_cpu_get_flag_enabled rte_cpu_feature_table (Auxv.of_records fd s) p i).value
            = some 1
          ∧ (rte_cpu_get_flag_enabled rte_cpu_feature_table (Auxv.of_records fd s) p j).value
            = some 0 := by
  refine ⟨by decide, by decide, ?_⟩
  intro i j hi hj hij fd p hfd
  have hfacts : ∀ id, id < 34 →
      (rte_cpu_feature_table.getD id feature_entry_zero).leaf ≠ 0
      ∧ ((rte_cpu_feature_table.getD id feature_entry_zero).reg = 0
          ∨ (rte_cpu_feature_table.getD id feature_entry_zero).reg = 1)
      ∧ (rte_cpu_feature_table.getD id feature_entry_zero).bit < 32 := by decide
  have hinj : ∀ a, a < 34 → ∀ b, b < 34 →
      (rte_cpu_feature_table.getD a feature_entry_zero).reg
        = (rte_cpu_feature_table.getD b feature_entry_zero).reg →
      (rte_cpu_feature_table.getD a feature_entry_zero).bit
        = (rte_cpu_feature_table.getD b feature_entry_zero).bit → a = b := by decide
  obtain ⟨hli, hri, hbi⟩ := hfacts i hi
  obtain ⟨hlj, hrj, _⟩ := hfacts j hj
  have hbits : (rte_cpu_feature_table.getD i feature_entry_zero).reg
        = (rte_cpu_feature_table.getD j feature_entry_zero).reg →
      (rte_cpu_feature_table.getD i feature_entry_zero).bit
        ≠ (rte_cpu_feature_table.getD j feature_entry_zero).bit :=
    fun hr hb => hij (hinj i hi j hj hr hb)
  have hlt : 2 ^ (rte_cpu_feature_table.getD i feature_entry_zero).bit < 2 ^ 32 :=
    Nat.pow_lt_pow_right (by decide) hbi
  have hpow : 2 ^ (rte_cpu_feature_table.getD i feature_entry_zero).bit % 4294967296
      = 2 ^ (rte_cpu_feature_table.getD i feature_entry_zero).bit :=
    Nat.mod_eq_of_lt hlt
  have hs : ∀ u, applied_records (Auxv.of_records fd u).reads = u :=
    fun u => applied_records_map_full u
  refine ⟨[⟨if (rte_cpu_feature_table.getD i feature_entry_zero).reg = REG_HWCAP
            then AT_HWCAP else AT_HWCAP2,
            2 ^ (rte_cpu_feature_table.getD i feature_entry_zero).bit⟩], ?_, ?_⟩
  · rw [flag_enabled_value_of_open _ _ p i hi hli (show 0 < (Auxv.of_records fd _).open_ret
      from hfd), hs, spec_word_single, spec_word_single]
    generalize rte_cpu_feature_table.getD i feature_entry_zero = ei at hri hpow ⊢
    rcases hri with h0 | h1
    · simp [h0, REG_HWCAP, AT_HWCAP, AT_HWCAP2, hpow, Nat.testBit_two_pow_self]
    · simp [h1, REG_HWCAP, AT_HWCAP, AT_HWCAP2, hpow, Nat.testBit_two_pow_self]
  · rw [flag_enabled_value_of_open _ _ p j hj hlj (show 0 < (Auxv.of_records fd _).open_ret
      from hfd), hs, spec_word_single, spec_word_single]
    generalize rte_cpu_feature_table.getD i feature_entry_zero = ei at hri hpow hbits ⊢
    generalize rte_cpu_feature_table.getD j feature_entry_zero = ej at hrj hbits ⊢
    rcases hri with h0 | h1 <;> rcases hrj with g0 | g1
    · have hb := hbits (h0.trans g0.symm)
      simp [h0, g0, REG_HWCAP, AT_HWCAP, AT_HWCAP2, hpow, Nat.testBit_two_pow, hb]
    · simp [h0, g1, REG_HWCAP, AT_HWCAP, AT_HWCAP2]
    · simp [h1, g0, REG_HWCAP, AT_HWCAP, AT_HWCAP2]
    · have hb := hbits (h1.trans g1.symm)
      simp [h1, g1, REG_HWCAP, AT_HWCAP, AT_HWCAP2, hpow, Nat.testBit_two_pow, hb]

/-- C19 at a concrete input: identifiers 27 (`PPC32`, bit 31 of `HWCAP`) and 33
(`ARCH_2_07`, bit 31 of `HWCAP2`) are told apart by some stream on descriptor 3. -/
theorem flag_bits_are_distinct_witness :
    ∃ s : List Elf64_auxv_t,
      (rte_cpu_get_flag_enabled rte_cpu_feature_table (Auxv.of_records 3 s) process_std
          27).value = some 1
      ∧ (rte_cpu_get_flag_enabled rte_cpu_feature_table (Auxv.of_records 3 s) process_std
          33).value = some 0 :=
  flag_bits_are_distinct.2.2 27 33 (by decide) (by decide) (by decide) 3 process_std
    (by decide)

/-! ## Descriptor 0 -/

theorem features_aborts_of_descriptor_zero (k : Auxv) (leaf subleaf : Nat)
    (out : cpuid_registers_t) (p : Process) (h0 : k.open_ret = 0) :
    rte_cpu_get_features k leaf subleaf out p = Exec.aborted := by
  simp [rte_cpu_get_features, h0]

theorem flag_enabled_aborts_of_descriptor_zero (table : List feature_entry) (k : Auxv)
    (p : Process) (id : Nat) (hid : id < RTE_CPUFLAG_NUMFLAGS table)
    (hleaf : (table.getD id feature_entry_zero).leaf ≠ 0) (h0 : k.open_ret = 0) :
    rte_cpu_get_flag_enabled table k p id = Exec.aborted := by
  have hge : ¬ id ≥ RTE_CPUFLAG_NUMFLAGS table := not_le.mpr hid
  simp only [rte_cpu_get_flag_enabled, hge, if_false]
  rw [if_neg hleaf, features_aborts_of_descriptor_zero k _ _ _ p h0]

theorem features_of_failed_open (k : Auxv) (leaf subleaf : Nat) (out : cpuid_registers_t)
    (p : Process) (hneg : k.open_ret < 0) :
    rte_cpu_get_features k leaf subleaf out p
      = Exec.returned out
          ((sys_open k.open_ret p).log (Syscall.sys_read k.open_ret (-1))) := by
  have h0 : k.open_ret ≠ 0 := ne_of_lt hneg
  simp [rte_cpu_get_features, h0, hneg]

theorem flag_enabled_value_of_failed_open (table : List feature_entry) (k : Auxv)
    (p : Process) (id : Nat) (hid : id < RTE_CPUFLAG_NUMFLAGS table)
    (hleaf : (table.getD id feature_entry_zero).leaf ≠ 0) (hneg : k.open_ret < 0) :
    (rte_cpu_get_flag_enabled table k p id).value = some 0 := by
  have hge : ¬ id ≥ RTE_CPUFLAG_NUMFLAGS table := not_le.mpr hid
  have hz : ∀ i : Nat, regs_zero.getD i 0 = 0 := by
    intro i
    rcases i with _ | _ | _ | _ | i <;> simp [regs_zero, List.getD]
  simp only [rte_cpu_get_flag_enabled, hge, if_false]
  rw [if_neg hleaf, features_of_failed_open k _ _ _ p hneg]
  simp only [Exec.value, hz]
  simp

/-- C1 does not hold of the code on descriptor 0. Take an identifier below the
table length whose entry has `leaf ≠ 0` and a stream of whole records. When the
stream opens on descriptor 0, a successful open, the assertion of the probe
aborts: the probe and the query return nothing. When it opens on a descriptor
`fd > 0`, the probe returns the words `[HWCAP word, HWCAP2 word, 0, 0]` of the
stream and the query returns 1 if bit `entry.bit` of the word selected by
`entry.reg` is set and 0 otherwise, as the claim says. -/
theorem flag_enabled_on_opened_stream (table : List feature_entry) (id : Nat) (fd : Int)
    (s : List Elf64_auxv_t) (p : Process)
    (hid : id < RTE_CPUFLAG_NUMFLAGS table)
    (hleaf : (table.getD id feature_entry_zero).leaf ≠ 0) :
    (fd = 0 →
      rte_cpu_get_features (Auxv.of_records fd s) (table.getD id feature_entry_zero).leaf
          (table.getD id feature_entry_zero).subleaf regs_zero p = Exec.aborted
      ∧ rte_cpu_get_flag_enabled table (Auxv.of_records fd s) p id = Exec.aborted
      ∧ (rte_cpu_get_flag_enabled table (Auxv.of_records fd s) p id).value = none)
    ∧ (0 < fd →
      ∃ regs p1,
        rte_cpu_get_features (Auxv.of_records fd s) (table.getD id feature_entry_zero).leaf
            (table.getD id feature_entry_zero).subleaf regs_zero p = Exec.returned regs p1
        ∧ regs = [spec_word AT_HWCAP s, spec_word AT_HWCAP2 s, 0, 0]
        ∧ rte_cpu_get_flag_enabled table (Auxv.of_records fd s) p id
            = Exec.returned
                (if (regs.getD (table.getD id feature_entry_zero).reg 0).testBit
                      (table.getD id feature_entry_zero).bit then 1 else 0) p1) := by
  refine ⟨fun h0 => ?_, fun hfd => selected_bit_of_positive_descriptor table id fd s p hid hleaf hfd⟩
  have hk : (Auxv.of_records fd s).open_ret = 0 := h0
  have hab := flag_enabled_aborts_of_descriptor_zero table _ p id hid hleaf hk
  exact ⟨features_aborts_of_descriptor_zero _ _ _ _ p hk, hab, by rw [hab]; rfl⟩

/-- C1 at the failing input and beside it: flag 27 (`PPC32`) on the stream
holding `(AT_HWCAP, 0x80000000)`. With descriptor 0 free the open returns 0 and
the query aborts; opened on descriptor 3 the query returns the selected bit. -/
theorem flag_enabled_on_opened_stream_witness :
    rte_cpu_get_flag_enabled rte_cpu_feature_table (Auxv.of_records 0 [⟨16, 0x80000000⟩])
        { open_fds := {1, 2}, syscalls := [] } 27 = Exec.aborted
    ∧ ∃ regs p1,
        rte_cpu_get_features (Auxv.of_records 3 [⟨16, 0x80000000⟩])
            (rte_cpu_feature_table.getD 27 feature_entry_zero).leaf
            (rte_cpu_feature_table.getD 27 feature_entry_zero).subleaf regs_zero process_std
          = Exec.returned regs p1
        ∧ regs = [spec_word AT_HWCAP [⟨16, 0x80000000⟩],
                  spec_word AT_HWCAP2 [⟨16, 0x80000000⟩], 0, 0]
        ∧ rte_cpu_get_flag_enabled rte_cpu_feature_table
              (Auxv.of_records 3 [⟨16, 0x80000000⟩]) process_std 27
            = Exec.returned
                (if (regs.getD (rte_cpu_feature_table.getD 27 feature_entry_zero).reg 0).testBit
                      (rte_cpu_feature_table.getD 27 feature_entry_zero).bit then 1 else 0) p1 :=
  ⟨((flag_enabled_on_opened_stream rte_cpu_feature_table 27 0 [⟨16, 0x80000000⟩]
        { open_fds := {1, 2}, syscalls := [] } (by decide) (by decide)).1 rfl).2.1,
   (flag_enabled_on_opened_stream rte_cpu_feature_table 27 3 [⟨16, 0x80000000⟩] process_std
        (by decide) (by decide)).2 (by decide)⟩

/-- C7 does not hold of the code on descriptor 0. In a stream of whole records
let `r` be the last record with key `AT_HWCAP` (none follows it in `post`; any
number may precede it in `pre`). When the stream opens on descriptor 0 the
assertion of the probe aborts: no word is produced and no query returns. When
it opens on a descriptor `fd > 0`, the `HWCAP` word is the value of `r` as a
32-bit word, every flag mapped to `REG_HWCAP` reads the bit of that word, and
the records before `r` have no influence; the same holds of `AT_HWCAP2` and
`REG_HWCAP2`; values are overwritten, not OR-ed (1 then 2 leaves 2). -/
theorem last_record_wins_on_opened_stream (fd : Int) (p : Process)
    (pre post : List Elf64_auxv_t) (r : Elf64_auxv_t) (leaf subleaf : Nat) :
    (fd = 0 →
      rte_cpu_get_features (Auxv.of_records fd (pre ++ r :: post)) leaf subleaf regs_zero p
        = Exec.aborted
      ∧ (rte_cpu_get_features (Auxv.of_records fd (pre ++ r :: post)) leaf subleaf regs_zero
          p).value = none
      ∧ ∀ (table : List feature_entry) (id : Nat), id < RTE_CPUFLAG_NUMFLAGS table →
          (table.getD id feature_entry_zero).leaf ≠ 0 →
          rte_cpu_get_flag_enabled table (Auxv.of_records fd (pre ++ r :: post)) p id
            = Exec.aborted)
    ∧ (0 < fd →
      (r.a_type = AT_HWCAP → (∀ x ∈ post, x.a_type ≠ AT_HWCAP) →
        (∃ regs p1,
          rte_cpu_get_features (Auxv.of_records fd (pre ++ r :: post)) leaf subleaf regs_zero p
            = Exec.returned regs p1
          ∧ regs.getD REG_HWCAP 0 = r.a_val % 2 ^ 32)
        ∧ ∀ (table : List feature_entry) (id : Nat), id < RTE_CPUFLAG_NUMFLAGS table →
            (table.getD id feature_entry_zero).leaf ≠ 0 →
            (table.getD id feature_entry_zero).reg = REG_HWCAP →
            (rte_cpu_get_flag_enabled table (Auxv.of_records fd (pre ++ r :: post)) p id).value
              = some (if (r.a_val % 2 ^ 32).testBit (table.getD id feature_entry_zero).bit
                      then 1 else 0))
      ∧ (r.a_type = AT_HWCAP2 → (∀ x ∈ post, x.a_type ≠ AT_HWCAP2) →
        (∃ regs p1,
          rte_cpu_get_features (Auxv.of_records fd (pre ++ r :: post)) leaf subleaf regs_zero p
            = Exec.returned regs p1
          ∧ regs.getD REG_HWCAP2 0 = r.a_val % 2 ^ 32)
        ∧ ∀ (table : List feature_entry) (id : Nat), id < RTE_CPUFLAG_NUMFLAGS table →
            (table.getD id feature_entry_zero).leaf ≠ 0 →
            (table.getD id feature_entry_zero).reg = REG_HWCAP2 →
            (rte_cpu_get_flag_enabled table (Auxv.of_records fd (pre ++ r :: post)) p id).value
              = some (if (r.a_val % 2 ^ 32).testBit (table.getD id feature_entry_zero).bit
                      then 1 else 0))
      ∧ (rte_cpu_get_features (Auxv.of_records fd [⟨AT_HWCAP, 1⟩, ⟨AT_HWCAP, 2⟩]) leaf subleaf
            regs_zero p).value = some [2, 0, 0, 0]) := by
  refine ⟨fun h0 => ?_,
    fun hfd => last_record_wins_of_positive_descriptor fd p pre post r leaf subleaf hfd⟩
  have hk : (Auxv.of_records fd (pre ++ r :: post)).open_ret = 0 := h0
  have hab := features_aborts_of_descriptor_zero _ leaf subleaf regs_zero p hk
  exact ⟨hab, by rw [hab]; rfl,
    fun table id hid hleaf => flag_enabled_aborts_of_descriptor_zero table _ p id hid hleaf hk⟩

/-- C7 at the failing input and beside it: the records `(16, 0x80000000)`,
`(16, 0x40000000)`, `(6, 4096)`. Opened on descriptor 0 the probe aborts and
produces no word; opened on descriptor 3, flag 27 (`PPC32`, bit 31 of `HWCAP`)
reads bit 31 of the second value. -/
theorem last_record_wins_on_opened_stream_witness :
    rte_cpu_get_features
        (Auxv.of_records 0 ([⟨16, 0x80000000⟩] ++ ⟨16, 0x40000000⟩ :: [⟨6, 4096⟩])) 1 0
        regs_zero { open_fds := {1, 2}, syscalls := [] } = Exec.aborted
    ∧ (rte_cpu_get_flag_enabled rte_cpu_feature_table
        (Auxv.of_records 3 ([⟨16, 0x80000000⟩] ++ ⟨16, 0x40000000⟩ :: [⟨6, 4096⟩]))
        process_std 27).value
      = some (if (0x40000000 % 2 ^ 32).testBit
                (rte_cpu_feature_table.getD 27 feature_entry_zero).bit then 1 else 0) :=
  ⟨((last_record_wins_on_opened_stream 0 { open_fds := {1, 2}, syscalls := [] }
        [⟨16, 0x80000000⟩] [⟨6, 4096⟩] ⟨16, 0x40000000⟩ 1 0).1 rfl).1,
   ((((last_record_wins_on_opened_stream 3 process_std [⟨16, 0x80000000⟩] [⟨6, 4096⟩]
        ⟨16, 0x40000000⟩ 1 0).2 (by decide)).1 rfl (by decide)).2
      rte_cpu_feature_table 27 (by decide) (by decide) rfl)⟩

/-- C8 does not hold of the code on descriptor 0. Take an identifier below the
table length whose entry has `leaf ≠ 0`. When `open` gives descriptor 0 the
assertion of the probe aborts and the query returns nothing, also on the empty
stream. On every other descriptor: if no record has key `AT_HWCAP` the `HWCAP`
word returned by the probe is 0 and a flag mapped to `REG_HWCAP` reads 0; if no
record has key `AT_HWCAP2` the `HWCAP2` word is 0 and a flag mapped to
`REG_HWCAP2` reads 0; on the empty stream the flag reads 0. -/
theorem absent_key_on_opened_stream (table : List feature_entry) (k : Auxv) (p : Process)
    (id : Nat) (hid : id < RTE_CPUFLAG_NUMFLAGS table)
    (hleaf : (table.getD id feature_entry_zero).leaf ≠ 0) :
    (k.open_ret = 0 →
      rte_cpu_get_features k (table.getD id feature_entry_zero).leaf
          (table.getD id feature_entry_zero).subleaf regs_zero p = Exec.aborted
      ∧ rte_cpu_get_flag_enabled table k p id = Exec.aborted
      ∧ (rte_cpu_get_flag_enabled table k p id).value = none)
    ∧ (k.open_ret ≠ 0 →
      ((∀ a, ReadResult.full a ∈ k.reads → a.a_type ≠ AT_HWCAP) →
        (∃ regs p1,
          rte_cpu_get_features k (table.getD id feature_entry_zero).leaf
              (table.getD id feature_entry_zero).subleaf regs_zero p = Exec.returned regs p1
          ∧ regs.getD REG_HWCAP 0 = 0)
        ∧ ((table.getD id feature_entry_zero).reg = REG_HWCAP →
            (rte_cpu_get_flag_enabled table k p id).value = some 0))
      ∧ ((∀ a, ReadResult.full a ∈ k.reads → a.a_type ≠ AT_HWCAP2) →
        (∃ regs p1,
          rte_cpu_get_features k (table.getD id feature_entry_zero).leaf
              (table.getD id feature_entry_zero).subleaf regs_zero p = Exec.returned regs p1
          ∧ regs.getD REG_HWCAP2 0 = 0)
        ∧ ((table.getD id feature_entry_zero).reg = REG_HWCAP2 →
            (rte_cpu_get_flag_enabled table k p id).value = some 0))
      ∧ (k.reads = [] → (rte_cpu_get_flag_enabled table k p id).value = some 0)) := by
  refine ⟨fun h0 => ?_, fun hne => ?_⟩
  · have hab := flag_enabled_aborts_of_descriptor_zero table k p id hid hleaf h0
    exact ⟨features_aborts_of_descriptor_zero k _ _ _ p h0, hab, by rw [hab]; rfl⟩
  · rcases lt_or_gt_of_ne hne with hneg | hpos
    · have hv := flag_enabled_value_of_failed_open table k p id hid hleaf hneg
      have hf := features_of_failed_open k (table.getD id feature_entry_zero).leaf
        (table.getD id feature_entry_zero).subleaf regs_zero p hneg
      exact ⟨fun _ => ⟨⟨_, _, hf, rfl⟩, fun _ => hv⟩,
             fun _ => ⟨⟨_, _, hf, rfl⟩, fun _ => hv⟩, fun _ => hv⟩
    · exact absent_key_zero_of_positive_descriptor table k p id hid hleaf hpos

/-- C8 at the failing input and beside it: on the empty stream, flag 33
(`ARCH_2_07`) aborts when the open gives descriptor 0 and reads 0 on
descriptor 3; the stream `(6, 4096), (26, 0x80000000)` on descriptor 3 has no
`AT_HWCAP` record and flag 27 (`PPC32`) reads 0. -/
theorem absent_key_on_opened_stream_witness :
    rte_cpu_get_flag_enabled rte_cpu_feature_table (Auxv.of_records 0 [])
        { open_fds := {1, 2}, syscalls := [] } 33 = Exec.aborted
    ∧ (rte_cpu_get_flag_enabled rte_cpu_feature_table (Auxv.of_records 3 []) process_std
        33).value = some 0
    ∧ (rte_cpu_get_flag_enabled rte_cpu_feature_table
        (Auxv.of_records 3 [⟨6, 4096⟩, ⟨26, 0x80000000⟩]) process_std 27).value = some 0 :=
  ⟨((absent_key_on_opened_stream rte_cpu_feature_table (Auxv.of_records 0 [])
        { open_fds := {1, 2}, syscalls := [] } 33 (by decide) (by decide)).1 rfl).2.1,
   ((absent_key_on_opened_stream rte_cpu_feature_table (Auxv.of_records 3 []) process_std 33
        (by decide) (by decide)).2 (by decide)).2.2 rfl,
   ((((absent_key_on_opened_stream rte_cpu_feature_table
        (Auxv.of_records 3 [⟨6, 4096⟩, ⟨26, 0x80000000⟩]) process_std 27
        (by decide) (by decide)).2 (by decide)).1
        (by simp [Auxv.of_records, AT_HWCAP])).2 rfl)⟩

/-- C9 does not hold of the code on descriptor 0. Take the stream holding the one
record `(AT_HWCAP, 0x80000000)`. When it opens on descriptor 0 the query aborts
for every flag of `rte_cpu_feature_table`, `PPC32` included. When it opens on a
descriptor `fd > 0`, every flag mapped to `REG_HWCAP` reads 1 if its bit is 31
and 0 otherwise; the flag on bit 31 is identifier 27, declared by
`FEAT_DEF(PPC32, 1, 0, REG_HWCAP, 31)`, and reads 1. -/
theorem single_hwcap_record_on_opened_stream (fd : Int) (p : Process) :
    (fd = 0 →
      ∀ id, id < RTE_CPUFLAG_NUMFLAGS rte_cpu_feature_table →
        rte_cpu_get_flag_enabled rte_cpu_feature_table
            (Auxv.of_records fd [⟨AT_HWCAP, 0x80000000⟩]) p id = Exec.aborted)
    ∧ (0 < fd →
      (∀ id, id < RTE_CPUFLAG_NUMFLAGS rte_cpu_feature_table →
        (rte_cpu_feature_table.getD id feature_entry_zero).reg = REG_HWCAP →
        (rte_cpu_get_flag_enabled rte_cpu_feature_table
            (Auxv.of_records fd [⟨AT_HWCAP, 0x80000000⟩]) p id).value
          = some (if (rte_cpu_feature_table.getD id feature_entry_zero).bit = 31
                  then 1 else 0))
      ∧ rte_cpu_feature_table.getD 27 feature_entry_zero = FEAT_DEF "PPC32" 1 0 REG_HWCAP 31
      ∧ rte_cpu_get_flag_enabled rte_cpu_feature_table
            (Auxv.of_records fd [⟨AT_HWCAP, 0x80000000⟩]) p 27
          = Exec.returned 1
              { open_fds := insert fd p.open_fds,
                syscalls := p.syscalls ++ [Syscall.sys_open fd, Syscall.sys_read fd 16,
                                           Syscall.sys_read fd 0] }) := by
  refine ⟨fun h0 id hid => ?_, fun hfd => single_hwcap_record_of_positive_descriptor fd p hfd⟩
  have hk : (Auxv.of_records fd [⟨AT_HWCAP, 0x80000000⟩]).open_ret = 0 := h0
  have hid2 : id < 34 := hid
  have hleaf : (rte_cpu_feature_table.getD id feature_entry_zero).leaf ≠ 0 := by
    interval_cases id <;> decide
  exact flag_enabled_aborts_of_descriptor_zero _ _ p id hid hleaf hk

/-- C9 at the failing input and beside it: with descriptor 0 free the open
returns 0 and the query for identifier 27 (`PPC32`) aborts; on descriptor 3
identifier 27 reads 1 and identifier 26 (`PPC64`, bit 30) reads 0. -/
theorem single_hwcap_record_on_opened_stream_witness :
    rte_cpu_get_flag_enabled rte_cpu_feature_table
        (Auxv.of_records 0 [⟨AT_HWCAP, 0x80000000⟩]) { open_fds := {1, 2}, syscalls := [] } 27
      = Exec.aborted
    ∧ (rte_cpu_get_flag_enabled rte_cpu_feature_table
        (Auxv.of_records 3 [⟨AT_HWCAP, 0x80000000⟩]) process_std 27).value = some 1
    ∧ (rte_cpu_get_flag_enabled rte_cpu_feature_table
        (Auxv.of_records 3 [⟨AT_HWCAP, 0x80000000⟩]) process_std 26).value = some 0 :=
  ⟨(single_hwcap_record_on_opened_stream 0 { open_fds := {1, 2}, syscalls := [] }).1 rfl 27
      (by decide),
   ((single_hwcap_record_on_opened_stream 3 process_std).2 (by decide)).1 27 (by decide) rfl,
   ((single_hwcap_record_on_opened_stream 3 process_std).2 (by decide)).1 26 (by decide) rfl⟩
